import Mathlib

/-!
# Verification of the text-to-speech Lambda handler (`main.go`)

The handler decodes a JSON request body, calls the Polly speech synthesiser,
uploads the audio stream to S3 under a date-partitioned key and answers with a
JSON body holding the object's location.

## Embedding

* Go strings are byte sequences (`GoString = List (Fin 256)`); a string literal
  of the source is its UTF-8 encoding (`str`).
* The external services (session creation, Polly, the S3 uploader, the UUID
  source, the wall clock) and the `S3BUCKET` setting are fields of a `World`.
  Every call to one of them, and every log line, is appended to the trace of
  the run (`Run`), so that "collaborator X was not invoked" and "A happened
  before B" are statements about the trace.
* A run of `HandleRequest` ends either by returning `(response, error)` or in a
  Go run-time panic (`Outcome`); likewise a call of `TextToSpeech` or of
  `saveToS3` (`Call`), which panic when the record carries no session.
* The Go library functions the handler relies on (`unicode/utf8`,
  `encoding/json`, `fmt`'s `%d`, `time.Month.String`) are written out as
  executable definitions after the library sources of the Go 1.10 line.  Their
  loops carry an explicit iteration bound; the section "The iteration bounds are
  never reached" proves that the bounds chosen are never hit.

## Results

* `HandleRequest` on a body without `text_to_translate` panics.
* Every error path returns status 400 with the error's text; the success path
  returns 200 with the body written by `json.Marshal`.
* The storage key is `<year>/<monthName>/<day>/<id>`, year and day by `%d`.
* The response body is read back as it was written exactly when the link is
  valid UTF-8.
* The identifier is drawn once, between synthesis and upload; the requests sent
  to the two services are as the source builds them.
-/

namespace TTS

/-! ## Go strings -/

abbrev Byte := Fin 256

abbrev GoString := List Byte

/-- Conversion `byte(n)` of a non-negative integer: truncation to 8 bits. -/
def byte (n : Nat) : Byte := ⟨n % 256, Nat.mod_lt _ (by decide)⟩

/-! ## `unicode/utf8` -/

/-- The constant `utf8.RuneError` (U+FFFD). -/
def RuneError : Nat := 0xFFFD

/-- Continuation byte test: `locb <= b && b <= hicb`. -/
def isCont (b : Byte) : Bool := 0x80 ≤ b.val && b.val ≤ 0xBF

/-- Accept range of the second byte for a given lead byte
(`acceptRanges[first[p0] >> 4]`). -/
def acceptRange (p0 : Byte) : Nat × Nat :=
  if p0.val = 0xE0 then (0xA0, 0xBF)
  else if p0.val = 0xED then (0x80, 0x9F)
  else if p0.val = 0xF0 then (0x90, 0xBF)
  else if p0.val = 0xF4 then (0x80, 0x8F)
  else (0x80, 0xBF)

/-- Size announced by a lead byte (`first[p0] & 7`), `0` for a byte that cannot
start a multi-byte sequence. -/
def leadSize (p0 : Byte) : Nat :=
  if 0xC2 ≤ p0.val ∧ p0.val ≤ 0xDF then 2
  else if 0xE0 ≤ p0.val ∧ p0.val ≤ 0xEF then 3
  else if 0xF0 ≤ p0.val ∧ p0.val ≤ 0xF4 then 4
  else 0

/-- Model of `utf8.DecodeRune`: the first rune of `p` and its width in bytes.
An invalid or truncated encoding gives `(RuneError, 1)`, the empty input
`(RuneError, 0)`.  Masks and shifts are written arithmetically:
`b & 0x3F = b % 64`, `x << 6 = x * 64`, and `|` of disjoint bit fields is `+`. -/
def DecodeRune (p : GoString) : Nat × Nat :=
  match p with
  | [] => (RuneError, 0)
  | p0 :: rest =>
    if p0.val < 0x80 then (p0.val, 1)
    else if leadSize p0 = 0 then (RuneError, 1)
    else
      match rest with
      | [] => (RuneError, 1)
      | b1 :: rest1 =>
        if b1.val < (acceptRange p0).1 ∨ (acceptRange p0).2 < b1.val then (RuneError, 1)
        else if leadSize p0 = 2 then ((p0.val % 32) * 64 + b1.val % 64, 2)
        else
          match rest1 with
          | [] => (RuneError, 1)
          | b2 :: rest2 =>
            if !isCont b2 then (RuneError, 1)
            else if leadSize p0 = 3 then
              ((p0.val % 16) * 4096 + (b1.val % 64) * 64 + b2.val % 64, 3)
            else
              match rest2 with
              | [] => (RuneError, 1)
              | b3 :: _ =>
                if !isCont b3 then (RuneError, 1)
                else ((p0.val % 8) * 262144 + (b1.val % 64) * 4096
                        + (b2.val % 64) * 64 + b3.val % 64, 4)

/-- Model of `utf8.EncodeRune` / `utf8.AppendRune` on a non-negative rune:
surrogates and values above U+10FFFF are written as U+FFFD. -/
def EncodeRune (r : Nat) : GoString :=
  if r ≤ 0x7F then [byte r]
  else if r ≤ 0x7FF then [byte (0xC0 + r / 64), byte (0x80 + r % 64)]
  else if r > 0x10FFFF ∨ (0xD800 ≤ r ∧ r ≤ 0xDFFF) then [0xEF, 0xBF, 0xBD]
  else if r ≤ 0xFFFF then
    [byte (0xE0 + r / 4096), byte (0x80 + (r / 64) % 64), byte (0x80 + r % 64)]
  else
    [byte (0xF0 + r / 262144), byte (0x80 + (r / 4096) % 64),
     byte (0x80 + (r / 64) % 64), byte (0x80 + r % 64)]

/-- Loop of `utf8.ValidString` with an explicit iteration bound. -/
def validFuel : Nat → GoString → Bool
  | _, [] => true
  | 0, _ :: _ => false
  | fuel + 1, p0 :: rest =>
    if p0.val < 0x80 then validFuel fuel rest
    else
      let d := DecodeRune (p0 :: rest)
      if d.1 = RuneError ∧ d.2 = 1 then false
      else validFuel fuel ((p0 :: rest).drop d.2)

/-- Model of `utf8.ValidString`: the string consists of valid UTF-8 encodings
only.  Every iteration consumes at least one byte, so `s.length` iterations
are enough. -/
def ValidString (s : GoString) : Bool := validFuel s.length s

/-- The string `s` with every byte that does not begin a valid encoding replaced
by the encoding of U+FFFD; the first argument bounds the number of steps.  This
is the text a reader of UTF-8 sees in `s`. -/
def coerceFuel : Nat → GoString → GoString
  | _, [] => []
  | 0, _ :: _ => []
  | fuel + 1, p0 :: rest =>
    if p0.val < 0x80 then p0 :: coerceFuel fuel rest
    else if (DecodeRune (p0 :: rest)).1 = RuneError ∧ (DecodeRune (p0 :: rest)).2 = 1 then
      [0xEF, 0xBF, 0xBD] ++ coerceFuel fuel rest
    else
      (p0 :: rest).take (DecodeRune (p0 :: rest)).2
        ++ coerceFuel fuel ((p0 :: rest).drop (DecodeRune (p0 :: rest)).2)

/-- The string `s` coerced to valid UTF-8: invalid bytes become U+FFFD, one by
one; a valid string is left as it is (`toValidUTF8_of_valid`). -/
def toValidUTF8 (s : GoString) : GoString := coerceFuel s.length s

/-- A Go string literal: the UTF-8 encoding of its source text. -/
def str (s : String) : GoString := s.data.flatMap (fun c => EncodeRune c.toNat)

/-! ## `fmt` and `time` -/

/-- Decimal digits of `n`, most significant first, pushed in front of `acc`;
the first argument bounds the number of digits. -/
def decimalFuel : Nat → Nat → GoString → GoString
  | 0, _, acc => acc
  | fuel + 1, n, acc =>
    if n / 10 = 0 then byte (48 + n % 10) :: acc
    else decimalFuel fuel (n / 10) (byte (48 + n % 10) :: acc)

/-- Decimal text of a natural number, no padding. -/
def formatNat (n : Nat) : GoString := decimalFuel (n + 1) n []

/-- The verb `%d` of `fmt.Sprintf` applied to an `int`: decimal text, a leading
minus sign for a negative value, no padding. -/
def formatInt (i : Int) : GoString :=
  if i < 0 then byte 45 :: formatNat (-i).toNat else formatNat i.toNat

/-- The type `time.Month` as returned by `Time.Month()`: always one of the
twelve months. -/
inductive Month
  | January | February | March | April | May | June
  | July | August | September | October | November | December
  deriving DecidableEq, Repr

/-- Model of `time.Month.String` (table `longMonthNames`). -/
def Month.String : Month → GoString
  | .January => str "January"
  | .February => str "February"
  | .March => str "March"
  | .April => str "April"
  | .May => str "May"
  | .June => str "June"
  | .July => str "July"
  | .August => str "August"
  | .September => str "September"
  | .October => str "October"
  | .November => str "November"
  | .December => str "December"

/-- One reading of the wall clock (`time.Now()`), given by the observations the
program makes of it: `Unix()`, `Year()`, `Month()` and `Day()`. -/
structure Time where
  Unix : Int
  Year : Int
  Month : Month
  Day : Nat
  deriving DecidableEq, Repr

/-! ## `encoding/json`: encoding -/

/-- The table `hex = "0123456789abcdef"`. -/
def hexDigit (n : Nat) : Byte :=
  if n % 16 < 10 then byte (48 + n % 16) else byte (87 + n % 16)

/-- The table `htmlSafeSet`: ASCII bytes written without escaping when HTML
escaping is on (the default of `json.Marshal`). -/
def htmlSafe (b : Byte) : Bool :=
  0x20 ≤ b.val && b.val < 0x80 && b.val != 0x22 && b.val != 0x5C
    && b.val != 0x3C && b.val != 0x3E && b.val != 0x26

/-- Escape of one ASCII byte outside `htmlSafeSet`. -/
def escapeByte (b : Byte) : GoString :=
  if b.val = 0x5C ∨ b.val = 0x22 then [0x5C, b]
  else if b.val = 0x0A then [0x5C, 0x6E]
  else if b.val = 0x0D then [0x5C, 0x72]
  else if b.val = 0x09 then [0x5C, 0x74]
  else [0x5C, 0x75, 0x30, 0x30, hexDigit (b.val / 16), hexDigit (b.val % 16)]

/-- Loop of `(*encodeState).string` with HTML escaping on: the contents of the
JSON string literal for `s`, without the surrounding quotes.  The first
argument bounds the number of iterations. -/
def escapeFuel : Nat → GoString → GoString
  | _, [] => []
  | 0, _ :: _ => []
  | fuel + 1, b :: rest =>
    if b.val < 0x80 then
      (if htmlSafe b then [b] else escapeByte b) ++ escapeFuel fuel rest
    else
      let d := DecodeRune (b :: rest)
      if d.1 = RuneError ∧ d.2 = 1 then
        str "\\ufffd" ++ escapeFuel fuel rest
      else if d.1 = 0x2028 ∨ d.1 = 0x2029 then
        str "\\u202" ++ [hexDigit (d.1 % 16)] ++ escapeFuel fuel ((b :: rest).drop d.2)
      else
        (b :: rest).take d.2 ++ escapeFuel fuel ((b :: rest).drop d.2)

/-- Model of `(*encodeState).string(s, true)`: the JSON string literal for `s`.
Every iteration consumes at least one byte of `s`. -/
def encodeString (s : GoString) : GoString :=
  [0x22] ++ escapeFuel s.length s ++ [0x22]

/-! ## `encoding/json`: errors -/

/-- A Go `error` value, given by the only observation the program makes of it:
the text returned by `Error()`. -/
structure GoError where
  Error : GoString
  deriving DecidableEq, Repr

/-- Two lower-case hexadecimal digits of a byte. -/
def hex2 (c : Byte) : GoString := [hexDigit (c.val / 16), hexDigit (c.val % 16)]

/-- Model of `quoteChar` of `scanner.go`: the offending byte inside single
quotes, rendered by `strconv.Quote(string(c))` except for the two quote
characters. -/
def quoteChar (c : Byte) : GoString :=
  if c.val = 0x27 then str "'\\''"
  else if c.val = 0x22 then str "'\"'"
  else
    [0x27] ++
    (if c.val = 0x5C then str "\\\\"
     else if 0x20 ≤ c.val ∧ c.val ≤ 0x7E then [c]
     else if c.val = 7 then str "\\a"
     else if c.val = 8 then str "\\b"
     else if c.val = 12 then str "\\f"
     else if c.val = 10 then str "\\n"
     else if c.val = 13 then str "\\r"
     else if c.val = 9 then str "\\t"
     else if c.val = 11 then str "\\v"
     else if c.val < 0x20 ∨ c.val = 0x7F then str "\\x" ++ hex2 c
     else if 0xA1 ≤ c.val ∧ c.val ≠ 0xAD then EncodeRune c.val
     else str "\\u00" ++ hex2 c)
    ++ [0x27]

/-- The `SyntaxError` raised by `(*scanner).error`. -/
def syntaxError (c : Byte) (context : String) : GoError :=
  ⟨str "invalid character " ++ quoteChar c ++ str " " ++ str context⟩

/-- The `SyntaxError` raised by `(*scanner).eof`. -/
def unexpectedEnd : GoError := ⟨str "unexpected end of JSON input"⟩

/-- Text of an `UnmarshalTypeError` raised while filling a struct field. -/
def fieldTypeError (value structName field goType : GoString) : GoError :=
  ⟨str "json: cannot unmarshal " ++ value ++ str " into Go struct field "
    ++ structName ++ str "." ++ field ++ str " of type " ++ goType⟩

/-- Text of an `UnmarshalTypeError` raised at the top level. -/
def valueTypeError (value goType : GoString) : GoError :=
  ⟨str "json: cannot unmarshal " ++ value ++ str " into Go value of type " ++ goType⟩

/-! ## `encoding/json`: reading a JSON text -/

/-- A JSON value.  Numbers keep their literal text, strings are unquoted,
object members keep their order and their duplicates. -/
inductive Json
  | null
  | bool (b : Bool)
  | number (lit : GoString)
  | string (s : GoString)
  | array (elems : List Json)
  | object (members : List (GoString × Json))

/-- The function `isSpace` of `scanner.go`. -/
def isSpace (c : Byte) : Bool :=
  c.val = 0x20 || c.val = 0x09 || c.val = 0x0D || c.val = 0x0A

/-- Skip leading JSON white space. -/
def skipSpace : GoString → GoString
  | [] => []
  | c :: rest => if isSpace c then skipSpace rest else c :: rest

/-- Value of a hexadecimal digit, as accepted in `\uXXXX`. -/
def hexVal (c : Byte) : Option Nat :=
  if 0x30 ≤ c.val ∧ c.val ≤ 0x39 then some (c.val - 0x30)
  else if 0x61 ≤ c.val ∧ c.val ≤ 0x66 then some (c.val - 0x61 + 10)
  else if 0x41 ≤ c.val ∧ c.val ≤ 0x46 then some (c.val - 0x41 + 10)
  else none

/-- Model of `getu4`: the rune of a leading `\uXXXX`, or `none` (Go: `-1`). -/
def getu4 (s : GoString) : Option Nat :=
  match s with
  | b :: u :: h1 :: h2 :: h3 :: h4 :: _ =>
    if b.val = 0x5C ∧ u.val = 0x75 then
      match hexVal h1, hexVal h2, hexVal h3, hexVal h4 with
      | some a, some b, some c, some d => some (a * 4096 + b * 256 + c * 16 + d)
      | _, _, _, _ => none
    else none
  | _ => none

/-- Model of `utf16.DecodeRune`, with `none` for a missing low half. -/
def utf16DecodeRune (r1 : Nat) (r2 : Option Nat) : Nat :=
  match r2 with
  | some r2 =>
    if 0xD800 ≤ r1 ∧ r1 < 0xDC00 ∧ 0xDC00 ≤ r2 ∧ r2 < 0xE000 then
      (r1 - 0xD800) * 1024 + (r2 - 0xDC00) + 0x10000
    else RuneError
  | none => RuneError

/-- The four hexadecimal digits after `\u`: their rune and the remaining input,
or the scanner's error at the first byte that is not a hexadecimal digit. -/
def scanHex4 : Nat → GoString → Nat → Except GoError (Nat × GoString)
  | 0, inp, acc => .ok (acc, inp)
  | _ + 1, [], _ => .error unexpectedEnd
  | n + 1, c :: rest, acc =>
    match hexVal c with
    | some d => scanHex4 n rest (acc * 16 + d)
    | none => .error (syntaxError c "in \\u hexadecimal character escape")

/-- What the reader finds at the head of the contents of a string literal. -/
inductive StringStep
  | closed (rest : GoString)
  | piece (out : GoString) (rest : GoString)
  | bad (err : GoError)

/-- The escape `\uXXXX`, after `\u` (scanner states `stateInStringEscU…`, and
the `'u'` case of `unquote`): a high surrogate followed by the escape of a low
surrogate gives the rune of the pair; any other surrogate gives U+FFFD. -/
def unicodeStep (rest1 : GoString) : StringStep :=
  match scanHex4 4 rest1 0 with
  | .error err => .bad err
  | .ok (rr, rest2) =>
    if 0xD800 ≤ rr ∧ rr < 0xE000 then
      if utf16DecodeRune rr (getu4 rest2) ≠ RuneError then
        .piece (EncodeRune (utf16DecodeRune rr (getu4 rest2))) (rest2.drop 6)
      else .piece (EncodeRune RuneError) rest2
    else .piece (EncodeRune rr) rest2

/-- An escape sequence, after the backslash (scanner state `stateInStringEsc`,
and the `'\\'` case of `unquote`). -/
def escapeStep (rest : GoString) : StringStep :=
  match rest with
  | [] => .bad unexpectedEnd
  | e :: rest1 =>
    if e.val = 0x22 ∨ e.val = 0x5C ∨ e.val = 0x2F then .piece [e] rest1
    else if e.val = 0x62 then .piece [0x08] rest1
    else if e.val = 0x66 then .piece [0x0C] rest1
    else if e.val = 0x6E then .piece [0x0A] rest1
    else if e.val = 0x72 then .piece [0x0D] rest1
    else if e.val = 0x74 then .piece [0x09] rest1
    else if e.val = 0x75 then unicodeStep rest1
    else .bad (syntaxError e "in string escape code")

/-- One step inside a string literal whose next byte is `c` (scanner state
`stateInString` and the loop body of `unquote`): the closing quote, an escape,
an ASCII character, or a multi-byte character, which is decoded and re-encoded
(malformed UTF-8 becomes U+FFFD). -/
def stringStep (c : Byte) (rest : GoString) : StringStep :=
  if c.val = 0x22 then .closed rest
  else if c.val = 0x5C then escapeStep rest
  else if c.val < 0x20 then .bad (syntaxError c "in string literal")
  else if c.val < 0x80 then .piece [c] rest
  else .piece (EncodeRune (DecodeRune (c :: rest)).1)
         ((c :: rest).drop (DecodeRune (c :: rest)).2)

/-- A JSON string literal after its opening quote, `acc` being the unquoted
text read so far: the unquoted string and the input after the closing quote.
The first argument bounds the number of steps. -/
def stringFuel : Nat → GoString → GoString → Except GoError (GoString × GoString)
  | _, [], _ => .error unexpectedEnd
  | 0, _ :: _, _ => .error unexpectedEnd
  | fuel + 1, c :: rest, acc =>
    match stringStep c rest with
    | .closed rest1 => .ok (acc, rest1)
    | .piece out rest1 => stringFuel fuel rest1 (acc ++ out)
    | .bad err => .error err

/-- A JSON string literal after its opening quote; every step consumes at least
one byte. -/
def stringLit (inp : GoString) : Except GoError (GoString × GoString) :=
  stringFuel inp.length inp []

/-- Decimal digit test. -/
def isDigit (c : Byte) : Bool := 0x30 ≤ c.val && c.val ≤ 0x39

/-- The longest run of decimal digits at the head of the input (scanner states
`state1`, `stateDot0`, `stateE0`). -/
def spanDigits : GoString → GoString × GoString
  | [] => ([], [])
  | c :: rest =>
    if isDigit c then ((spanDigits rest).1.cons c, (spanDigits rest).2) else ([], c :: rest)

/-- Exponent part of a number, after the literal text `lit` read so far
(scanner states `state0`/`stateDot0` on `e`, `stateE`, `stateESign`). -/
def scanExponent (lit : GoString) (inp : GoString) : Except GoError (GoString × GoString) :=
  match inp with
  | [] => .ok (lit, [])
  | e :: rest =>
    if e.val = 0x65 ∨ e.val = 0x45 then
      match rest with
      | [] => .error unexpectedEnd
      | sg :: rest1 =>
        if sg.val = 0x2B ∨ sg.val = 0x2D then
          match rest1 with
          | [] => .error unexpectedEnd
          | d :: rest2 =>
            if isDigit d then
              .ok (lit ++ [e, sg, d] ++ (spanDigits rest2).1, (spanDigits rest2).2)
            else .error (syntaxError d "in exponent of numeric literal")
        else if isDigit sg then
          .ok (lit ++ [e, sg] ++ (spanDigits rest1).1, (spanDigits rest1).2)
        else .error (syntaxError sg "in exponent of numeric literal")
    else .ok (lit, e :: rest)

/-- Fraction and exponent of a number, after its integer part `lit`
(scanner states `state0`, `stateDot`, `stateDot0`). -/
def scanFraction (lit : GoString) (inp : GoString) : Except GoError (GoString × GoString) :=
  match inp with
  | [] => .ok (lit, [])
  | dot :: rest =>
    if dot.val = 0x2E then
      match rest with
      | [] => .error unexpectedEnd
      | d :: rest1 =>
        if isDigit d then
          scanExponent (lit ++ [dot, d] ++ (spanDigits rest1).1) (spanDigits rest1).2
        else .error (syntaxError d "after decimal point in numeric literal")
    else scanExponent lit (dot :: rest)

/-- Integer part of a number after an optional minus sign (`sign` is the text
read so far), followed by fraction and exponent (scanner states `stateNeg`,
`state0`, `state1`). -/
def scanInteger (sign : GoString) (inp : GoString) : Except GoError (GoString × GoString) :=
  match inp with
  | [] => .error unexpectedEnd
  | d :: rest =>
    if d.val = 0x30 then scanFraction (sign ++ [d]) rest
    else if isDigit d then
      scanFraction (sign ++ [d] ++ (spanDigits rest).1) (spanDigits rest).2
    else .error (syntaxError d "in numeric literal")

/-- The rest of one of the literals `true`, `false`, `null` after its first
letter; `what` names the literal in the error text. -/
def expectLit (what : String) : GoString → GoString → Except GoError GoString
  | [], inp => .ok inp
  | _ :: _, [] => .error unexpectedEnd
  | e :: es, c :: rest =>
    if c = e then expectLit what es rest
    else .error (syntaxError c
      ("in literal " ++ what ++ " (expecting '" ++ String.mk [Char.ofNat e.val] ++ "')"))

mutual
/-- One JSON value at the head of the input (scanner state `stateBeginValue`);
returns the value and the input after it.  The first argument bounds the
depth of the recursion. -/
def parseValue : Nat → GoString → Except GoError (Json × GoString)
  | 0, _ => .error unexpectedEnd
  | fuel + 1, inp =>
    match skipSpace inp with
    | [] => .error unexpectedEnd
    | c :: rest =>
      if c.val = 0x7B then
        match skipSpace rest with
        | [] => .error unexpectedEnd
        | c1 :: rest1 =>
          if c1.val = 0x7D then .ok (.object [], rest1)
          else parseMembers fuel (c1 :: rest1) []
      else if c.val = 0x5B then
        match skipSpace rest with
        | [] => .error unexpectedEnd
        | c1 :: rest1 =>
          if c1.val = 0x5D then .ok (.array [], rest1)
          else parseElements fuel (c1 :: rest1) []
      else if c.val = 0x22 then
        match stringLit rest with
        | .error err => .error err
        | .ok (s, rest1) => .ok (.string s, rest1)
      else if c.val = 0x2D then
        match scanInteger [c] rest with
        | .error err => .error err
        | .ok (lit, rest1) => .ok (.number lit, rest1)
      else if isDigit c then
        match scanInteger [] (c :: rest) with
        | .error err => .error err
        | .ok (lit, rest1) => .ok (.number lit, rest1)
      else if c.val = 0x74 then
        match expectLit "true" (str "rue") rest with
        | .error err => .error err
        | .ok rest1 => .ok (.bool true, rest1)
      else if c.val = 0x66 then
        match expectLit "false" (str "alse") rest with
        | .error err => .error err
        | .ok rest1 => .ok (.bool false, rest1)
      else if c.val = 0x6E then
        match expectLit "null" (str "ull") rest with
        | .error err => .error err
        | .ok rest1 => .ok (.null, rest1)
      else .error (syntaxError c "looking for beginning of value")

/-- The members of an object from a key on (scanner state `stateBeginString`),
`acc` being the members read so far. -/
def parseMembers :
    Nat → GoString → List (GoString × Json) → Except GoError (Json × GoString)
  | 0, _, _ => .error unexpectedEnd
  | fuel + 1, inp, acc =>
    match skipSpace inp with
    | [] => .error unexpectedEnd
    | c :: rest =>
      if c.val ≠ 0x22 then .error (syntaxError c "looking for beginning of object key string")
      else
        match stringLit rest with
        | .error err => .error err
        | .ok (key, rest1) =>
          match skipSpace rest1 with
          | [] => .error unexpectedEnd
          | c1 :: rest2 =>
            if c1.val ≠ 0x3A then .error (syntaxError c1 "after object key")
            else
              match parseValue fuel rest2 with
              | .error err => .error err
              | .ok (v, rest3) =>
                match skipSpace rest3 with
                | [] => .error unexpectedEnd
                | c2 :: rest4 =>
                  if c2.val = 0x2C then parseMembers fuel rest4 (acc ++ [(key, v)])
                  else if c2.val = 0x7D then .ok (.object (acc ++ [(key, v)]), rest4)
                  else .error (syntaxError c2 "after object key:value pair")

/-- The elements of an array from a value on, `acc` being the elements read so
far. -/
def parseElements : Nat → GoString → List Json → Except GoError (Json × GoString)
  | 0, _, _ => .error unexpectedEnd
  | fuel + 1, inp, acc =>
    match parseValue fuel inp with
    | .error err => .error err
    | .ok (v, rest) =>
      match skipSpace rest with
      | [] => .error unexpectedEnd
      | c :: rest1 =>
        if c.val = 0x2C then parseElements fuel rest1 (acc ++ [v])
        else if c.val = 0x5D then .ok (.array (acc ++ [v]), rest1)
        else .error (syntaxError c "after array element")
end

/-- Model of `checkValid` followed by the reading of the value: the JSON value
written in `data`, or the scanner's `SyntaxError`.  The end of the input acts
as one more space (`(*scanner).eof` steps the scanner on a space); an input
that then ends early is "unexpected end of JSON input".  Reading `n` bytes
takes at most `2 * n + 1` nested calls (`parseValue_fuel`). -/
def parseJSON (data : GoString) : Except GoError Json :=
  match parseValue (2 * data.length + 3) (data ++ [0x20]) with
  | .error err => .error err
  | .ok (v, rest) =>
    match skipSpace rest with
    | [] => .ok v
    | c :: _ => .error (syntaxError c "after top-level value")

/-! ## `encoding/json`: filling a struct -/

/-- The operation `b & caseMask` of `fold.go` (`caseMask = ^byte(0x20)`):
bit 5 cleared. -/
def caseMasked (b : Byte) : Nat := if (b.val / 32) % 2 = 1 then b.val - 32 else b.val

/-- Model of the case-insensitive comparison of a field name `s` with an
object key `t` (`equalFoldRight` of `fold.go`; on ASCII names without `k` and
`s` the specialisations `asciiEqualFold` and `simpleLetterEqualFold`, which the
library then picks, give the same answers).  Besides ASCII case, the Kelvin sign
U+212A matches `k` and the long s U+017F matches `s`. -/
def equalFold : GoString → GoString → Bool
  | [], t => t.isEmpty
  | _ :: _, [] => false
  | sb :: s, tb :: t =>
    if tb.val < 0x80 then
      if sb ≠ tb then
        if 0x41 ≤ caseMasked sb ∧ caseMasked sb ≤ 0x5A then
          if caseMasked sb ≠ caseMasked tb then false else equalFold s t
        else false
      else equalFold s t
    else
      if sb.val = 0x73 ∨ sb.val = 0x53 then
        if (DecodeRune (tb :: t)).1 ≠ 0x17F then false
        else equalFold s ((tb :: t).drop (DecodeRune (tb :: t)).2)
      else if sb.val = 0x6B ∨ sb.val = 0x4B then
        if (DecodeRune (tb :: t)).1 ≠ 0x212A then false
        else equalFold s ((tb :: t).drop (DecodeRune (tb :: t)).2)
      else false

/-- The field search of `(*decodeState).object`: an exactly equal name wins,
otherwise the first field whose name matches case-insensitively. -/
def findField {φ : Type} : List (GoString × φ) → GoString → Option φ → Option φ
  | [], _, f => f
  | (name, a) :: rest, key, f =>
    if name = key then some a
    else findField rest key (if f.isNone && equalFold name key then some a else f)

/-- The `Value` text of an `UnmarshalTypeError` for a JSON value. -/
def Json.typeName : Json → GoString
  | .null => str "null"
  | .bool _ => str "bool"
  | .number _ => str "number"
  | .string _ => str "string"
  | .array _ => str "array"
  | .object _ => str "object"

/-- Value of a non-empty run of decimal digits. -/
def parseDigits : GoString → Nat → Option Nat
  | [], _ => none
  | [c], acc => if isDigit c then some (acc * 10 + (c.val - 0x30)) else none
  | c :: c1 :: rest, acc =>
    if isDigit c then parseDigits (c1 :: rest) (acc * 10 + (c.val - 0x30)) else none

/-- Model of `strconv.ParseInt(s, 10, 64)`; `none` when it returns an error
(not an integer literal, or out of the `int64` range). -/
def ParseInt64 (s : GoString) : Option Int :=
  match s with
  | [] => none
  | c :: rest =>
    if c.val = 0x2D then
      match parseDigits rest 0 with
      | some n => if n ≤ 2 ^ 63 then some (-(n : Int)) else none
      | none => none
    else if c.val = 0x2B then
      match parseDigits rest 0 with
      | some n => if n < 2 ^ 63 then some (n : Int) else none
      | none => none
    else
      match parseDigits (c :: rest) 0 with
      | some n => if n < 2 ^ 63 then some (n : Int) else none
      | none => none

/-- Store of a JSON value into a field of Go type `string`: a JSON string is
stored, `null` leaves the field alone, anything else is a type error. -/
def storeString (structName field : GoString) (v : Json) (old : GoString) :
    GoString × Option GoError :=
  match v with
  | .string s => (s, none)
  | .null => (old, none)
  | v => (old, some (fieldTypeError v.typeName structName field (str "string")))

/-- Store of a JSON value into a field of Go type `*string`: `null` sets the
pointer to nil; otherwise a nil pointer is first made to point to a fresh empty
string, into which the value is stored as for `string`. -/
def storeStringPtr (structName field : GoString) (v : Json) (old : Option GoString) :
    Option GoString × Option GoError :=
  match v with
  | .null => (none, none)
  | v => (some (storeString structName field v (old.getD [])).1,
          (storeString structName field v (old.getD [])).2)

/-- Store of a JSON value into a field of Go type `int64`. -/
def storeInt64 (structName field : GoString) (v : Json) (old : Int) : Int × Option GoError :=
  match v with
  | .number lit =>
    match ParseInt64 lit with
    | some n => (n, none)
    | none => (old, some (fieldTypeError (str "number " ++ lit) structName field (str "int64")))
  | .null => (old, none)
  | v => (old, some (fieldTypeError v.typeName structName field (str "int64")))

/-- The member loop of `(*decodeState).object` for a struct with field table
`fields` and field store `set`: unknown keys are skipped, the first type error
is kept (`saveError`) and decoding goes on. -/
def decodeMembers {σ φ : Type} (fields : List (GoString × φ))
    (set : σ → φ → Json → σ × Option GoError) :
    List (GoString × Json) → σ → Option GoError → σ × Option GoError
  | [], r, err => (r, err)
  | (key, v) :: rest, r, err =>
    match findField fields key none with
    | none => decodeMembers fields set rest r err
    | some f =>
      decodeMembers fields set rest (set r f v).1
        (match err with
         | some e => some e
         | none => (set r f v).2)

/-- Model of `json.Unmarshal(data, &v)` for a struct `v`: the value after the
call and the returned error.  A syntax error leaves `v` alone; `null` is a
no-op; a value that is not an object is a type error. -/
def unmarshalStruct {σ φ : Type} (goType : GoString) (fields : List (GoString × φ))
    (set : σ → φ → Json → σ × Option GoError) (data : GoString) (v : σ) :
    σ × Option GoError :=
  match parseJSON data with
  | .error err => (v, some err)
  | .ok (.object members) => decodeMembers fields set members v none
  | .ok .null => (v, none)
  | .ok j => (v, some (valueTypeError j.typeName goType))

/-! ## The program's data (`main.go`, lines 21–38) -/

/-- An AWS session (`*session.Session`), opaque to the program. -/
structure Session where
  handle : Nat
  deriving DecidableEq, Repr

/-- An audio stream (`io.ReadCloser`), given by the bytes it will deliver. -/
structure ReadCloser where
  content : GoString
  deriving DecidableEq, Repr

/-- The struct `TTSRequest`.  Pointer and interface fields are options, `nil`
being `none`. -/
structure TTSRequest where
  TargetPolly : GoString := []
  VoiceID : GoString := []
  TextToTranslate : Option GoString := none
  ID : GoString := []
  S3Link : GoString := []
  TTL : Int := 0
  AudioText : Option ReadCloser := none
  AwsSession : Option Session := none
  deriving DecidableEq, Repr

/-- The struct `Response`. -/
structure Response where
  S3Link : GoString := []
  deriving DecidableEq, Repr

/-- The fields of `TTSRequest` visible to `encoding/json` (`AudioText` and
`AwsSession` carry the tag `json:"-"`). -/
inductive TTSField
  | TargetPolly | VoiceID | TextToTranslate | ID | S3Link | TTL
  deriving DecidableEq, Repr

/-- JSON names of the fields of `TTSRequest`, in declaration order; `TTL` has no
tag and goes by its Go name. -/
def ttsFields : List (GoString × TTSField) :=
  [(str "target_polly", .TargetPolly), (str "voice_id", .VoiceID),
   (str "text_to_translate", .TextToTranslate), (str "id", .ID),
   (str "s3Link", .S3Link), (str "TTL", .TTL)]

/-- Store of a JSON value into one field of a `TTSRequest`. -/
def TTSRequest.setField (r : TTSRequest) (f : TTSField) (v : Json) :
    TTSRequest × Option GoError :=
  match f with
  | .TargetPolly =>
    ({ r with TargetPolly :=
        (storeString (str "TTSRequest") (str "target_polly") v r.TargetPolly).1 },
     (storeString (str "TTSRequest") (str "target_polly") v r.TargetPolly).2)
  | .VoiceID =>
    ({ r with VoiceID := (storeString (str "TTSRequest") (str "voice_id") v r.VoiceID).1 },
     (storeString (str "TTSRequest") (str "voice_id") v r.VoiceID).2)
  | .TextToTranslate =>
    ({ r with TextToTranslate :=
        (storeStringPtr (str "TTSRequest") (str "text_to_translate") v r.TextToTranslate).1 },
     (storeStringPtr (str "TTSRequest") (str "text_to_translate") v r.TextToTranslate).2)
  | .ID =>
    ({ r with ID := (storeString (str "TTSRequest") (str "id") v r.ID).1 },
     (storeString (str "TTSRequest") (str "id") v r.ID).2)
  | .S3Link =>
    ({ r with S3Link := (storeString (str "TTSRequest") (str "s3Link") v r.S3Link).1 },
     (storeString (str "TTSRequest") (str "s3Link") v r.S3Link).2)
  | .TTL =>
    ({ r with TTL := (storeInt64 (str "TTSRequest") (str "TTL") v r.TTL).1 },
     (storeInt64 (str "TTSRequest") (str "TTL") v r.TTL).2)

/-- The call `json.Unmarshal(data, &req)` for `req : TTSRequest`. -/
def unmarshalTTSRequest (data : GoString) (req : TTSRequest) : TTSRequest × Option GoError :=
  unmarshalStruct (str "main.TTSRequest") ttsFields TTSRequest.setField data req

/-- JSON names of the fields of `Response`. -/
def responseFields : List (GoString × Unit) := [(str "s3Link", ())]

/-- Store of a JSON value into the only field of a `Response`. -/
def Response.setField (r : Response) (_ : Unit) (v : Json) : Response × Option GoError :=
  ({ r with S3Link := (storeString (str "Response") (str "s3Link") v r.S3Link).1 },
   (storeString (str "Response") (str "s3Link") v r.S3Link).2)

/-- The call `json.Unmarshal(data, &res)` for `res : Response`. -/
def unmarshalResponse (data : GoString) (res : Response) : Response × Option GoError :=
  unmarshalStruct (str "main.Response") responseFields Response.setField data res

/-- The call `json.Marshal(res)` for `res : *Response`: the object with the one
member `s3Link`; the encoding of a string field has no failure case, so the
returned error is always nil. -/
def marshalResponse (res : Response) : GoString × Option GoError :=
  (str "\x7b\"s3Link\":" ++ encodeString res.S3Link ++ str "\x7d", none)

/-! ## The collaborators -/

/-- The request `polly.SynthesizeSpeechInput`, with the fields the program
sets; every field is a `*string`. -/
structure SynthesizeSpeechInput where
  LanguageCode : Option GoString := none
  OutputFormat : Option GoString := none
  Text : Option GoString := none
  VoiceId : Option GoString := none
  deriving DecidableEq, Repr

/-- The answer `polly.SynthesizeSpeechOutput`, with the field the program
reads. -/
structure SynthesizeSpeechOutput where
  AudioStream : Option ReadCloser
  deriving DecidableEq, Repr

/-- The request `s3manager.UploadInput`, with the fields the program sets. -/
structure UploadInput where
  Bucket : Option GoString := none
  Key : Option GoString := none
  Body : Option ReadCloser := none
  ContentType : Option GoString := none
  ACL : Option GoString := none
  deriving DecidableEq, Repr

/-- The answer `s3manager.UploadOutput`, with the field the program reads. -/
structure UploadOutput where
  Location : GoString
  deriving DecidableEq, Repr

/-- The response `events.APIGatewayProxyResponse`, with the fields the program
sets. -/
structure APIGatewayProxyResponse where
  Body : GoString
  StatusCode : Int
  deriving DecidableEq, Repr

/-- Everything outside the program during one invocation.
* `bucket`: the package variable `bucket`, i.e. `os.Getenv("S3BUCKET")` read at
  process start;
* `NewSessionWithOptions`: result of `session.NewSessionWithOptions`;
* `SynthesizeSpeech sess input`: result of `polly.New(sess).SynthesizeSpeech(input)`;
* `NewV4 k`: text of the `k`-th identifier drawn by `uuid.NewV4().String()`;
* `Now k`: the `k`-th reading of `time.Now()` made by the program;
* `Upload sess input`: result of `s3manager.NewUploader(sess).Upload(input)`. -/
structure World where
  bucket : GoString
  NewSessionWithOptions : Except GoError Session
  SynthesizeSpeech :
    Option Session → SynthesizeSpeechInput → Except GoError SynthesizeSpeechOutput
  NewV4 : Nat → GoString
  Now : Nat → Time
  Upload : Option Session → UploadInput → Except GoError UploadOutput

/-- An observable step of a run. -/
inductive Event
  | log (line : GoString)
  | newSession
  | synthesizeSpeech (sess : Option Session) (input : SynthesizeSpeechInput)
  | newV4 (id : GoString)
  | now (t : Time)
  | upload (sess : Option Session) (input : UploadInput)
  deriving DecidableEq, Repr

/-- State of a run: the steps made so far, oldest first, and how many clock
readings and identifiers have been drawn. -/
structure Run where
  trace : List Event := []
  clockReads : Nat := 0
  uuidCalls : Nat := 0
  deriving DecidableEq, Repr

/-- The step is a call of the synthesis collaborator. -/
def Event.isSynthesis : Event → Bool
  | .synthesizeSpeech _ _ => true
  | _ => false

/-- The step is a call of the upload collaborator. -/
def Event.isUpload : Event → Bool
  | .upload _ _ => true
  | _ => false

/-- The step is the drawing of an identifier. -/
def Event.isNewV4 : Event → Bool
  | .newV4 _ => true
  | _ => false

/-- The calls `log.Printf` / `log.Print`, recorded with the formatted text. -/
def logPrint (line : GoString) (s : Run) : Run :=
  { s with trace := s.trace ++ [.log line] }

/-- The call `time.Now()`. -/
def timeNow (w : World) (s : Run) : Time × Run :=
  (w.Now s.clockReads,
   { s with trace := s.trace ++ [.now (w.Now s.clockReads)], clockReads := s.clockReads + 1 })

/-! ## The program (`main.go`, lines 44–140) -/

/-- The text built on line 131,
`fmt.Sprintf("%d/%s/%d/%s", now.Year(), now.Month().String(), now.Day(), id)`,
for a clock reading `now`. -/
def filenameAt (now : Time) (id : GoString) : GoString :=
  formatInt now.Year ++ str "/" ++ now.Month.String ++ str "/"
    ++ formatInt (now.Day : Int) ++ str "/" ++ id

/-- The function `generateFilename` (lines 129–132): reads the clock and
formats the key. -/
def generateFilename (w : World) (id : GoString) (s : Run) : GoString × Run :=
  (filenameAt (timeNow w s).1 id, (timeNow w s).2)

/-- The method `setTTL` (lines 134–136): thirty days after the current time, in
Unix seconds. -/
def TTSRequest.setTTL (w : World) (r : TTSRequest) (s : Run) : TTSRequest × Run :=
  ({ r with TTL := (timeNow w s).1.Unix + 30 * 24 * 3600 }, (timeNow w s).2)

/-- The method `setID` (lines 138–140): a fresh version-4 UUID. -/
def TTSRequest.setID (w : World) (r : TTSRequest) (s : Run) : TTSRequest × Run :=
  ({ r with ID := w.NewV4 s.uuidCalls },
   { s with trace := s.trace ++ [.newV4 (w.NewV4 s.uuidCalls)], uuidCalls := s.uuidCalls + 1 })

/-- The request built by `TextToSpeech` (lines 88–93). -/
def synthesisInput (r : TTSRequest) : SynthesizeSpeechInput :=
  { LanguageCode := some r.TargetPolly
    OutputFormat := some (str "mp3")
    Text := r.TextToTranslate
    VoiceId := some r.VoiceID }

/-- How a call of one of the program's functions ends: it returns its results,
or the Go run time panics. -/
inductive Call (α : Type)
  | returned (a : α)
  | panicked (reason : GoString)
  deriving DecidableEq, Repr

/-- Text of the run-time error raised by the dereference of a nil pointer. -/
def nilDereference : GoString :=
  str "runtime error: invalid memory address or nil pointer dereference"

/-- The function `TextToSpeech` (lines 83–102).  Line 85, `polly.New(r.AwsSession)`,
copies the session's configuration, so a nil session ends in a nil-pointer
panic before anything is sent.  Otherwise the request is sent; on success the
request record is returned with the audio stream stored in it, otherwise the
provider's error. -/
def TextToSpeech (w : World) (r : TTSRequest) (s : Run) :
    Call (Except GoError TTSRequest) × Run :=
  match r.AwsSession with
  | none => (.panicked nilDereference, s)
  | some sess =>
    let s1 : Run :=
      { s with trace := s.trace ++ [.synthesizeSpeech (some sess) (synthesisInput r)] }
    match w.SynthesizeSpeech (some sess) (synthesisInput r) with
    | .error err => (.returned (.error err), s1)
    | .ok output => (.returned (.ok { r with AudioText := output.AudioStream }), s1)

/-- The request built by `saveToS3` (lines 113–119) for the bucket name, the
key and the audio stream. -/
def uploadInput (bucket filename : GoString) (body : Option ReadCloser) : UploadInput :=
  { Bucket := some bucket
    Key := some filename
    Body := body
    ContentType := some (str "audio/mpeg")
    ACL := some (str "public-read") }

/-- The function `saveToS3` (lines 104–127), working on its own copy of the
request record.  Line 105, `s3manager.NewUploader(r.AwsSession)`, copies the
session's configuration, so a nil session ends in a nil-pointer panic before
the identifier is drawn.  Otherwise: the returned string and error. -/
def saveToS3 (w : World) (r : TTSRequest) (s : Run) :
    Call (GoString × Option GoError) × Run :=
  match r.AwsSession with
  | none => (.panicked nilDereference, s)
  | some sess =>
    let r1 := (r.setID w s).1
    let s1 := (r.setID w s).2
    let r2 := (r1.setTTL w s1).1
    let s2 := (r1.setTTL w s1).2
    let filename := (generateFilename w r2.ID s2).1
    let s3 := logPrint (str "s3 path " ++ filename) (generateFilename w r2.ID s2).2
    let s4 : Run :=
      { s3 with trace :=
          s3.trace ++ [.upload (some sess) (uploadInput w.bucket filename r2.AudioText)] }
    match w.Upload (some sess) (uploadInput w.bucket filename r2.AudioText) with
    | .error err => (.returned ([], some err), logPrint err.Error s4)
    | .ok output => (.returned (output.Location, none), s4)

/-- How an invocation of the handler ends: it returns its two results, or the
Go run time panics. -/
inductive Outcome
  | returned (resp : APIGatewayProxyResponse) (err : Option GoError)
  | panicked (reason : GoString)
  deriving DecidableEq, Repr

/-- The function `HandleRequest` (lines 44–81) on the event body `body`. -/
def HandleRequest (w : World) (body : GoString) : Outcome × Run :=
  let s0 : Run := {}
  match unmarshalTTSRequest body {} with
  | (_, some err) => (.returned { Body := err.Error, StatusCode := 400 } none, s0)
  | (req, none) =>
    match req.TextToTranslate with
    | none => (.panicked nilDereference, s0)
    | some text =>
      let s1 := logPrint (str "body : " ++ text) s0
      let s2 : Run := { s1 with trace := s1.trace ++ [.newSession] }
      match w.NewSessionWithOptions with
      | .error err => (.panicked err.Error, s2)
      | .ok sess =>
        match TextToSpeech w { req with AwsSession := some sess } s2 with
        | (.panicked reason, s3) => (.panicked reason, s3)
        | (.returned (.error err), s3) =>
          (.returned { Body := err.Error, StatusCode := 400 } none, s3)
        | (.returned (.ok tts), s3) =>
          match saveToS3 w tts s3 with
          | (.panicked reason, s4) => (.panicked reason, s4)
          | (.returned (_, some err), s4) =>
            (.returned { Body := err.Error, StatusCode := 400 } none,
             logPrint (str "error " ++ err.Error) s4)
          | (.returned (s3Link, none), s4) =>
            let s5 := logPrint (str "sent speech to s3 " ++ s3Link ++ str " ") s4
            match marshalResponse { S3Link := s3Link } with
            | (_, some err) => (.returned { Body := err.Error, StatusCode := 400 } none, s5)
            | (jres, none) =>
              (.returned { Body := jres, StatusCode := 200 } none,
               logPrint (str "return response to gateway ") s5)

/-! ## Example data -/

/-- A well-formed request body; the caller also supplies an `id`. -/
def exampleBody : GoString :=
  str ("\x7b\"target_polly\":\"en-US\",\"voice_id\":\"Joanna\","
        ++ "\"text_to_translate\":\"hi\",\"id\":\"mine\"\x7d")

/-- The request record `exampleBody` decodes to. -/
def exampleRequest : TTSRequest :=
  { TargetPolly := str "en-US", VoiceID := str "Joanna",
    TextToTranslate := some (str "hi"), ID := str "mine" }

/-- A clock stuck at 5 March 2024. -/
def march5 : Time := { Unix := 1709640000, Year := 2024, Month := .March, Day := 5 }

/-- A world in which every service answers. -/
def exampleWorld : World :=
  { bucket := str "speech-bucket"
    NewSessionWithOptions := .ok ⟨1⟩
    SynthesizeSpeech := fun _ _ => .ok ⟨some ⟨[0x49, 0x44, 0x33]⟩⟩
    NewV4 := fun _ => str "6ba7b810-9dad-41d1-80b4-00c04fd430c8"
    Now := fun _ => march5
    Upload := fun _ input => .ok ⟨str "https://s3.example/" ++ input.Key.getD []⟩ }

/-- A world in which the synthesis provider rejects the request. -/
def synthesisDownWorld : World :=
  { exampleWorld with SynthesizeSpeech := fun _ _ => .error ⟨str "InvalidSsmlException"⟩ }

/-- A world in which the object store rejects the upload. -/
def uploadDownWorld : World :=
  { exampleWorld with Upload := fun _ _ => .error ⟨str "AccessDenied"⟩ }

/-- A world whose clock shows 5 March of the year 999. -/
def year999World : World :=
  { exampleWorld with
    Now := fun _ => { Unix := -30637000000, Year := 999, Month := .March, Day := 5 } }

/-- The steps of a run that reaches the upload: the body is logged, the session
is created, the synthesis is requested, the identifier is drawn, the clock is
read for the TTL and again for the key, the key is logged and the upload is
requested. -/
def stepsToUpload (w : World) (req : TTSRequest) (text : GoString) (sess : Session)
    (out : SynthesizeSpeechOutput) : List Event :=
  [.log (str "body : " ++ text),
   .newSession,
   .synthesizeSpeech (some sess) (synthesisInput { req with AwsSession := some sess }),
   .newV4 (w.NewV4 0),
   .now (w.Now 0),
   .now (w.Now 1),
   .log (str "s3 path " ++ filenameAt (w.Now 1) (w.NewV4 0)),
   .upload (some sess) (uploadInput w.bucket (filenameAt (w.Now 1) (w.NewV4 0)) out.AudioStream)]

/-! ## The iteration bounds are never reached -/

theorem DecodeRune_size_pos (p0 : Byte) (rest : GoString) : 1 ≤ (DecodeRune (p0 :: rest)).2 := by
  simp only [DecodeRune]
  repeat' (first | split | simp)

theorem length_drop_DecodeRune (p0 : Byte) (rest : GoString) :
    ((p0 :: rest).drop (DecodeRune (p0 :: rest)).2).length ≤ rest.length := by
  have := DecodeRune_size_pos p0 rest
  simp only [List.length_drop, List.length_cons]
  omega

theorem skipSpace_length (inp : GoString) : (skipSpace inp).length ≤ inp.length := by
  induction inp with
  | nil => simp [skipSpace]
  | cons c rest ih =>
    simp only [skipSpace]
    split_ifs
    · simp only [List.length_cons]; omega
    · exact Nat.le_refl _

theorem scanHex4_length (n : Nat) : ∀ (inp : GoString) (acc r : Nat) (rest : GoString),
    scanHex4 n inp acc = .ok (r, rest) → rest.length ≤ inp.length := by
  induction n with
  | zero =>
    intro inp acc r rest h
    simp only [scanHex4, Except.ok.injEq, Prod.mk.injEq] at h
    rw [← h.2]
  | succ n ih =>
    intro inp acc r rest h
    cases inp with
    | nil => simp [scanHex4] at h
    | cons c t =>
      simp only [scanHex4] at h
      cases hc : hexVal c with
      | none => simp [hc] at h
      | some d =>
        simp only [hc] at h
        have := ih t _ r rest h
        simp only [List.length_cons]
        omega

theorem unicodeStep_length (rest1 out r : GoString) (h : unicodeStep rest1 = .piece out r) :
    r.length ≤ rest1.length := by
  unfold unicodeStep at h
  cases hs : scanHex4 4 rest1 0 with
  | error err => simp [hs] at h
  | ok p =>
    obtain ⟨rr, rest2⟩ := p
    have hl := scanHex4_length 4 rest1 0 rr rest2 hs
    simp only [hs] at h
    split_ifs at h <;> simp only [StringStep.piece.injEq] at h <;> obtain ⟨-, rfl⟩ := h
    · simp only [List.length_drop]; omega
    · exact hl
    · exact hl

theorem escapeStep_length (rest out r : GoString) (h : escapeStep rest = .piece out r) :
    r.length ≤ rest.length := by
  unfold escapeStep at h
  cases rest with
  | nil => simp at h
  | cons e rest1 =>
    simp only at h
    split_ifs at h
    all_goals first
      | (simp only [StringStep.piece.injEq] at h; obtain ⟨-, rfl⟩ := h; simp)
      | (simp only [List.length_cons]; exact Nat.le_succ_of_le (unicodeStep_length rest1 out r h))

theorem stringStep_piece_length (c : Byte) (rest out r : GoString)
    (h : stringStep c rest = .piece out r) : r.length ≤ rest.length := by
  unfold stringStep at h
  split_ifs at h
  all_goals first
    | exact escapeStep_length rest out r h
    | (simp only [StringStep.piece.injEq] at h
       obtain ⟨-, rfl⟩ := h
       first | exact Nat.le_refl _ | exact length_drop_DecodeRune c rest)

theorem escapeStep_not_closed (rest r : GoString) : escapeStep rest ≠ .closed r := by
  unfold escapeStep
  cases rest with
  | nil => simp
  | cons e rest1 =>
    simp only
    split_ifs <;> try simp
    unfold unicodeStep
    cases scanHex4 4 rest1 0 with
    | error err => simp
    | ok p =>
      simp only
      split_ifs <;> simp

theorem stringStep_closed_length (c : Byte) (rest r : GoString)
    (h : stringStep c rest = .closed r) : r.length ≤ rest.length := by
  unfold stringStep at h
  split_ifs at h
  all_goals first
    | (simp only [StringStep.closed.injEq] at h; rw [h])
    | exact absurd h (escapeStep_not_closed rest r)

/-- The step bound of `stringFuel` is never reached once it is at least the
length of the input. -/
theorem stringFuel_fuel (n : Nat) : ∀ (inp acc : GoString) (m : Nat), inp.length ≤ n →
    inp.length ≤ m → stringFuel n inp acc = stringFuel m inp acc := by
  induction n with
  | zero =>
    intro inp acc m hn _
    have : inp = [] := List.length_eq_zero.1 (by omega)
    subst this
    cases m <;> rfl
  | succ n ih =>
    intro inp acc m hn hm
    cases inp with
    | nil => cases m <;> rfl
    | cons c rest =>
      obtain ⟨m', rfl⟩ : ∃ m', m = m' + 1 := ⟨m - 1, by simp at hm; omega⟩
      simp only [List.length_cons, Nat.add_le_add_iff_right] at hn hm
      rw [stringFuel, stringFuel]
      cases hs : stringStep c rest with
      | closed r => rfl
      | bad err => rfl
      | piece out r =>
        have := stringStep_piece_length c rest out r hs
        exact ih r _ m' (by omega) (by omega)

theorem stringFuel_length (n : Nat) : ∀ (inp acc s rest : GoString),
    stringFuel n inp acc = .ok (s, rest) → rest.length < inp.length := by
  induction n with
  | zero =>
    intro inp acc s rest h
    cases inp <;> simp [stringFuel] at h
  | succ n ih =>
    intro inp acc s rest h
    cases inp with
    | nil => simp [stringFuel] at h
    | cons c t =>
      rw [stringFuel] at h
      cases hs : stringStep c t with
      | closed r =>
        simp only [hs, Except.ok.injEq, Prod.mk.injEq] at h
        have := stringStep_closed_length c t r hs
        rw [← h.2]; simp only [List.length_cons]; omega
      | bad err => simp [hs] at h
      | piece out r =>
        simp only [hs] at h
        have h1 := stringStep_piece_length c t out r hs
        have h2 := ih r _ s rest h
        simp only [List.length_cons]; omega

theorem stringLit_length (inp s rest : GoString) (h : stringLit inp = .ok (s, rest)) :
    rest.length < inp.length :=
  stringFuel_length _ inp [] s rest h

theorem spanDigits_length (inp : GoString) : (spanDigits inp).2.length ≤ inp.length := by
  induction inp with
  | nil => simp [spanDigits]
  | cons c rest ih =>
    simp only [spanDigits]
    split_ifs
    · simp only [List.length_cons]; omega
    · exact Nat.le_refl _

theorem scanExponent_length (lit inp lit' rest : GoString)
    (h : scanExponent lit inp = .ok (lit', rest)) : rest.length ≤ inp.length := by
  unfold scanExponent at h
  cases inp with
  | nil => simp only [Except.ok.injEq, Prod.mk.injEq] at h; rw [← h.2]
  | cons e t =>
    simp only at h
    split_ifs at h
    · cases t with
      | nil => simp at h
      | cons sg t1 =>
        simp only at h
        split_ifs at h
        · cases t1 with
          | nil => simp at h
          | cons d t2 =>
            simp only at h
            split_ifs at h
            simp only [Except.ok.injEq, Prod.mk.injEq] at h
            have := spanDigits_length t2
            rw [← h.2]; simp only [List.length_cons]; omega
        · simp only [Except.ok.injEq, Prod.mk.injEq] at h
          have := spanDigits_length t1
          rw [← h.2]; simp only [List.length_cons]; omega
    · simp only [Except.ok.injEq, Prod.mk.injEq] at h; rw [← h.2]

theorem scanFraction_length (lit inp lit' rest : GoString)
    (h : scanFraction lit inp = .ok (lit', rest)) : rest.length ≤ inp.length := by
  unfold scanFraction at h
  cases inp with
  | nil => simp only [Except.ok.injEq, Prod.mk.injEq] at h; rw [← h.2]
  | cons dot t =>
    simp only at h
    split_ifs at h
    · cases t with
      | nil => simp at h
      | cons d t1 =>
        simp only at h
        split_ifs at h
        have h1 := scanExponent_length _ _ _ _ h
        have h2 := spanDigits_length t1
        simp only [List.length_cons]; omega
    · exact scanExponent_length _ _ _ _ h

theorem scanInteger_length (sign inp lit rest : GoString)
    (h : scanInteger sign inp = .ok (lit, rest)) : rest.length < inp.length := by
  unfold scanInteger at h
  cases inp with
  | nil => simp at h
  | cons d t =>
    simp only at h
    split_ifs at h
    · have := scanFraction_length _ _ _ _ h
      simp only [List.length_cons]; omega
    · have h1 := scanFraction_length _ _ _ _ h
      have h2 := spanDigits_length t
      simp only [List.length_cons]; omega

theorem expectLit_length (what : String) : ∀ (es inp rest : GoString),
    expectLit what es inp = .ok rest → rest.length ≤ inp.length := by
  intro es
  induction es with
  | nil =>
    intro inp rest h
    simp only [expectLit, Except.ok.injEq] at h
    rw [h]
  | cons e es ih =>
    intro inp rest h
    cases inp with
    | nil => simp [expectLit] at h
    | cons c t =>
      simp only [expectLit] at h
      split_ifs at h
      have := ih t rest h
      simp only [List.length_cons]; omega

/-- The iteration bound of `escapeFuel` is never reached once it is at least the
length of the string. -/
theorem escapeFuel_fuel (n : Nat) : ∀ (s : GoString) (m : Nat), s.length ≤ n → s.length ≤ m →
    escapeFuel n s = escapeFuel m s := by
  induction n with
  | zero =>
    intro s m hn _
    have : s = [] := List.length_eq_zero.1 (by omega)
    subst this
    cases m <;> rfl
  | succ n ih =>
    intro s m hn hm
    cases s with
    | nil => cases m <;> rfl
    | cons b t =>
      obtain ⟨m', rfl⟩ : ∃ m', m = m' + 1 := ⟨m - 1, by simp at hm; omega⟩
      simp only [List.length_cons, Nat.add_le_add_iff_right] at hn hm
      have hd := length_drop_DecodeRune b t
      simp only [escapeFuel]
      rw [ih t m' hn hm, ih _ m' (by omega) (by omega)]

/-- The iteration bound of `validFuel` is never reached once it is at least the
length of the string. -/
theorem validFuel_fuel (n : Nat) : ∀ (s : GoString) (m : Nat), s.length ≤ n → s.length ≤ m →
    validFuel n s = validFuel m s := by
  induction n with
  | zero =>
    intro s m hn _
    have : s = [] := List.length_eq_zero.1 (by omega)
    subst this
    cases m <;> rfl
  | succ n ih =>
    intro s m hn hm
    cases s with
    | nil => cases m <;> rfl
    | cons b t =>
      obtain ⟨m', rfl⟩ : ∃ m', m = m' + 1 := ⟨m - 1, by simp at hm; omega⟩
      simp only [List.length_cons, Nat.add_le_add_iff_right] at hn hm
      have hd := length_drop_DecodeRune b t
      simp only [validFuel]
      rw [ih t m' hn hm, ih _ m' (by omega) (by omega)]

theorem parseValue_length_step (f : Nat)
    (ihM : ∀ inp acc v rest, parseMembers f inp acc = .ok (v, rest) → rest.length < inp.length)
    (ihE : ∀ inp acc v rest, parseElements f inp acc = .ok (v, rest) → rest.length < inp.length)
    (inp : GoString) (v : Json) (rest' : GoString)
    (h : parseValue (f + 1) inp = .ok (v, rest')) : rest'.length < inp.length := by
  rw [parseValue] at h
  have hsk := skipSpace_length inp
  cases hs : skipSpace inp with
  | nil => simp [hs] at h
  | cons c rest =>
    rw [hs] at hsk h
    simp only [List.length_cons] at hsk
    simp only at h
    split_ifs at h
    · -- object
      have hsk2 := skipSpace_length rest
      cases hs2 : skipSpace rest with
      | nil => simp [hs2] at h
      | cons c1 rest1 =>
        rw [hs2] at hsk2 h
        simp only [List.length_cons] at hsk2
        simp only at h
        split_ifs at h
        · simp only [Except.ok.injEq, Prod.mk.injEq] at h
          rw [← h.2]; omega
        · have := ihM _ _ _ _ h
          simp only [List.length_cons] at this
          omega
    · -- array
      have hsk2 := skipSpace_length rest
      cases hs2 : skipSpace rest with
      | nil => simp [hs2] at h
      | cons c1 rest1 =>
        rw [hs2] at hsk2 h
        simp only [List.length_cons] at hsk2
        simp only at h
        split_ifs at h
        · simp only [Except.ok.injEq, Prod.mk.injEq] at h
          rw [← h.2]; omega
        · have := ihE _ _ _ _ h
          simp only [List.length_cons] at this
          omega
    · -- string
      cases hl : stringLit rest with
      | error err => simp [hl] at h
      | ok p =>
        obtain ⟨s, r1⟩ := p
        simp only [hl, Except.ok.injEq, Prod.mk.injEq] at h
        have := stringLit_length _ _ _ hl
        rw [← h.2]; omega
    · -- negative number
      cases hl : scanInteger [c] rest with
      | error err => simp [hl] at h
      | ok p =>
        obtain ⟨s, r1⟩ := p
        simp only [hl, Except.ok.injEq, Prod.mk.injEq] at h
        have := scanInteger_length _ _ _ _ hl
        rw [← h.2]; omega
    · -- number
      cases hl : scanInteger [] (c :: rest) with
      | error err => simp [hl] at h
      | ok p =>
        obtain ⟨s, r1⟩ := p
        simp only [hl, Except.ok.injEq, Prod.mk.injEq] at h
        have := scanInteger_length _ _ _ _ hl
        simp only [List.length_cons] at this
        rw [← h.2]; omega
    · cases hl : expectLit "true" (str "rue") rest with
      | error err => simp [hl] at h
      | ok r1 =>
        simp only [hl, Except.ok.injEq, Prod.mk.injEq] at h
        have := expectLit_length _ _ _ _ hl
        rw [← h.2]; omega
    · cases hl : expectLit "false" (str "alse") rest with
      | error err => simp [hl] at h
      | ok r1 =>
        simp only [hl, Except.ok.injEq, Prod.mk.injEq] at h
        have := expectLit_length _ _ _ _ hl
        rw [← h.2]; omega
    · cases hl : expectLit "null" (str "ull") rest with
      | error err => simp [hl] at h
      | ok r1 =>
        simp only [hl, Except.ok.injEq, Prod.mk.injEq] at h
        have := expectLit_length _ _ _ _ hl
        rw [← h.2]; omega


theorem parseMembers_length_step (f : Nat)
    (ihV : ∀ inp v rest, parseValue f inp = .ok (v, rest) → rest.length < inp.length)
    (ihM : ∀ inp acc v rest, parseMembers f inp acc = .ok (v, rest) → rest.length < inp.length)
    (inp : GoString) (acc : List (GoString × Json)) (v : Json) (rest' : GoString)
    (h : parseMembers (f + 1) inp acc = .ok (v, rest')) : rest'.length < inp.length := by
  rw [parseMembers] at h
  have hsk := skipSpace_length inp
  cases hs : skipSpace inp with
  | nil => simp [hs] at h
  | cons c rest =>
    rw [hs] at hsk h
    simp only [List.length_cons] at hsk
    simp only at h
    split_ifs at h
    cases hl : stringLit rest with
    | error err => simp [hl] at h
    | ok p =>
      obtain ⟨key, rest1⟩ := p
      have hl1 := stringLit_length _ _ _ hl
      simp only [hl] at h
      have hsk2 := skipSpace_length rest1
      cases hs2 : skipSpace rest1 with
      | nil => simp [hs2] at h
      | cons c1 rest2 =>
        rw [hs2] at hsk2 h
        simp only [List.length_cons] at hsk2
        simp only at h
        split_ifs at h
        cases hv : parseValue f rest2 with
        | error err => simp [hv] at h
        | ok q =>
          obtain ⟨val, rest3⟩ := q
          have hv1 := ihV _ _ _ hv
          simp only [hv] at h
          have hsk3 := skipSpace_length rest3
          cases hs3 : skipSpace rest3 with
          | nil => simp [hs3] at h
          | cons c2 rest4 =>
            rw [hs3] at hsk3 h
            simp only [List.length_cons] at hsk3
            simp only at h
            split_ifs at h
            · have := ihM _ _ _ _ h
              omega
            · simp only [Except.ok.injEq, Prod.mk.injEq] at h
              rw [← h.2]; omega

theorem parseElements_length_step (f : Nat)
    (ihV : ∀ inp v rest, parseValue f inp = .ok (v, rest) → rest.length < inp.length)
    (ihE : ∀ inp acc v rest, parseElements f inp acc = .ok (v, rest) → rest.length < inp.length)
    (inp : GoString) (acc : List Json) (v : Json) (rest' : GoString)
    (h : parseElements (f + 1) inp acc = .ok (v, rest')) : rest'.length < inp.length := by
  rw [parseElements] at h
  cases hv : parseValue f inp with
  | error err => simp [hv] at h
  | ok q =>
    obtain ⟨val, rest⟩ := q
    have hv1 := ihV _ _ _ hv
    simp only [hv] at h
    have hsk := skipSpace_length rest
    cases hs : skipSpace rest with
    | nil => simp [hs] at h
    | cons c rest1 =>
      rw [hs] at hsk h
      simp only [List.length_cons] at hsk
      simp only at h
      split_ifs at h
      · have := ihE _ _ _ _ h
        omega
      · simp only [Except.ok.injEq, Prod.mk.injEq] at h
        rw [← h.2]; omega

/-- A value, a member list or an element list that is read consumes at least one
byte. -/
theorem parse_length (f : Nat) :
    (∀ inp v rest, parseValue f inp = .ok (v, rest) → rest.length < inp.length) ∧
    (∀ inp acc v rest, parseMembers f inp acc = .ok (v, rest) → rest.length < inp.length) ∧
    (∀ inp acc v rest, parseElements f inp acc = .ok (v, rest) → rest.length < inp.length) := by
  induction f with
  | zero =>
    refine ⟨?_, ?_, ?_⟩
    · intro inp v rest h; simp [parseValue] at h
    · intro inp acc v rest h; simp [parseMembers] at h
    · intro inp acc v rest h; simp [parseElements] at h
  | succ f ih =>
    obtain ⟨ihV, ihM, ihE⟩ := ih
    exact ⟨parseValue_length_step f ihM ihE, parseMembers_length_step f ihV ihM,
      parseElements_length_step f ihV ihE⟩


theorem parseValue_fuel_step (f g : Nat)
    (ihM : ∀ inp acc, 2 * inp.length + 2 ≤ f → parseMembers g inp acc = parseMembers f inp acc)
    (ihE : ∀ inp acc, 2 * inp.length + 2 ≤ f → parseElements g inp acc = parseElements f inp acc)
    (inp : GoString) (hf : 2 * inp.length + 1 ≤ f + 1) :
    parseValue (g + 1) inp = parseValue (f + 1) inp := by
  rw [parseValue, parseValue]
  have hsk := skipSpace_length inp
  cases hs : skipSpace inp with
  | nil => rfl
  | cons c rest =>
    rw [hs] at hsk
    simp only [List.length_cons] at hsk
    simp only
    by_cases h1 : c.val = 0x7B
    · simp only [h1, if_true]
      have hsk2 := skipSpace_length rest
      cases hs2 : skipSpace rest with
      | nil => rfl
      | cons c1 rest1 =>
        rw [hs2] at hsk2
        simp only [List.length_cons] at hsk2
        simp only
        rw [ihM (c1 :: rest1) [] (by simp only [List.length_cons]; omega)]
    · simp only [h1, if_false]
      by_cases h2 : c.val = 0x5B
      · simp only [h2, if_true]
        have hsk2 := skipSpace_length rest
        cases hs2 : skipSpace rest with
        | nil => rfl
        | cons c1 rest1 =>
          rw [hs2] at hsk2
          simp only [List.length_cons] at hsk2
          simp only
          rw [ihE (c1 :: rest1) [] (by simp only [List.length_cons]; omega)]
      · simp only [h2, if_false]

theorem parseMembers_fuel_step (f g : Nat)
    (ihV : ∀ inp, 2 * inp.length + 1 ≤ f → parseValue g inp = parseValue f inp)
    (ihM : ∀ inp acc, 2 * inp.length + 2 ≤ f → parseMembers g inp acc = parseMembers f inp acc)
    (inp : GoString) (acc : List (GoString × Json)) (hf : 2 * inp.length + 2 ≤ f + 1) :
    parseMembers (g + 1) inp acc = parseMembers (f + 1) inp acc := by
  rw [parseMembers, parseMembers]
  have hsk := skipSpace_length inp
  cases hs : skipSpace inp with
  | nil => rfl
  | cons c rest =>
    rw [hs] at hsk
    simp only [List.length_cons] at hsk
    simp only
    by_cases h1 : c.val ≠ 0x22
    · simp only [if_pos h1]
    · simp only [if_neg h1]
      cases hl : stringLit rest with
      | error err => rfl
      | ok p =>
        obtain ⟨key, rest1⟩ := p
        have hl1 := stringLit_length _ _ _ hl
        simp only
        have hsk2 := skipSpace_length rest1
        cases hs2 : skipSpace rest1 with
        | nil => rfl
        | cons c1 rest2 =>
          rw [hs2] at hsk2
          simp only [List.length_cons] at hsk2
          simp only
          by_cases h2 : c1.val ≠ 0x3A
          · simp only [if_pos h2]
          · simp only [if_neg h2]
            rw [ihV rest2 (by omega)]
            cases hv : parseValue f rest2 with
            | error err => rfl
            | ok q =>
              obtain ⟨val, rest3⟩ := q
              have hv1 := (parse_length f).1 _ _ _ hv
              simp only
              have hsk3 := skipSpace_length rest3
              cases hs3 : skipSpace rest3 with
              | nil => rfl
              | cons c2 rest4 =>
                rw [hs3] at hsk3
                simp only [List.length_cons] at hsk3
                simp only
                rw [ihM rest4 _ (by omega)]

theorem parseElements_fuel_step (f g : Nat)
    (ihV : ∀ inp, 2 * inp.length + 1 ≤ f → parseValue g inp = parseValue f inp)
    (ihE : ∀ inp acc, 2 * inp.length + 2 ≤ f → parseElements g inp acc = parseElements f inp acc)
    (inp : GoString) (acc : List Json) (hf : 2 * inp.length + 2 ≤ f + 1) :
    parseElements (g + 1) inp acc = parseElements (f + 1) inp acc := by
  rw [parseElements, parseElements]
  rw [ihV inp (by omega)]
  cases hv : parseValue f inp with
  | error err => rfl
  | ok q =>
    obtain ⟨val, rest⟩ := q
    have hv1 := (parse_length f).1 _ _ _ hv
    simp only
    have hsk := skipSpace_length rest
    cases hs : skipSpace rest with
    | nil => rfl
    | cons c rest1 =>
      rw [hs] at hsk
      simp only [List.length_cons] at hsk
      simp only
      rw [ihE rest1 _ (by omega)]

/-- The depth bound of the reader is never reached: with a bound of at least
`2 * n + 1` for a value (`2 * n + 2` for a member or element list) on an input of
`n` bytes, a larger bound gives the same result. -/
theorem parse_fuel (f : Nat) :
    (∀ inp g, 2 * inp.length + 1 ≤ f → f ≤ g → parseValue g inp = parseValue f inp) ∧
    (∀ inp acc g, 2 * inp.length + 2 ≤ f → f ≤ g →
      parseMembers g inp acc = parseMembers f inp acc) ∧
    (∀ inp acc g, 2 * inp.length + 2 ≤ f → f ≤ g →
      parseElements g inp acc = parseElements f inp acc) := by
  induction f with
  | zero =>
    refine ⟨?_, ?_, ?_⟩
    · intro inp g h; omega
    · intro inp acc g h; omega
    · intro inp acc g h; omega
  | succ f ih =>
    obtain ⟨ihV, ihM, ihE⟩ := ih
    refine ⟨?_, ?_, ?_⟩
    · intro inp g hf hg
      obtain ⟨g', rfl⟩ : ∃ g', g = g' + 1 := ⟨g - 1, by omega⟩
      exact parseValue_fuel_step f g' (fun i a h => ihM i a g' h (by omega))
        (fun i a h => ihE i a g' h (by omega)) inp hf
    · intro inp acc g hf hg
      obtain ⟨g', rfl⟩ : ∃ g', g = g' + 1 := ⟨g - 1, by omega⟩
      exact parseMembers_fuel_step f g' (fun i h => ihV i g' h (by omega))
        (fun i a h => ihM i a g' h (by omega)) inp acc hf
    · intro inp acc g hf hg
      obtain ⟨g', rfl⟩ : ∃ g', g = g' + 1 := ⟨g - 1, by omega⟩
      exact parseElements_fuel_step f g' (fun i h => ihV i g' h (by omega))
        (fun i a h => ihE i a g' h (by omega)) inp acc hf

/-- The depth bound chosen by `parseJSON` is never reached: any larger bound
gives the same reading of `data`. -/
theorem parseValue_fuel (data : GoString) (g : Nat) (hg : 2 * data.length + 3 ≤ g) :
    parseValue g (data ++ [0x20]) = parseValue (2 * data.length + 3) (data ++ [0x20]) :=
  (parse_fuel (2 * data.length + 3)).1 (data ++ [0x20]) g (by simp; omega) hg

/-! ## UTF-8: a valid encoding is the encoding of its rune -/

theorem byte_eq_iff (n : Nat) (b : Byte) : byte n = b ↔ n % 256 = b.val := by
  simp [byte, Fin.ext_iff]

theorem byte_val (b : Byte) : byte b.val = b := by
  rw [byte_eq_iff]; have := b.isLt; omega

theorem leadSize_cases (p0 : Byte) :
    (leadSize p0 = 0 ∧ ¬ (0xC2 ≤ p0.val ∧ p0.val ≤ 0xF4)) ∨
    (leadSize p0 = 2 ∧ 0xC2 ≤ p0.val ∧ p0.val ≤ 0xDF) ∨
    (leadSize p0 = 3 ∧ 0xE0 ≤ p0.val ∧ p0.val ≤ 0xEF) ∨
    (leadSize p0 = 4 ∧ 0xF0 ≤ p0.val ∧ p0.val ≤ 0xF4) := by
  unfold leadSize
  split_ifs <;> simp <;> omega

theorem acceptRange_bounds (p0 b1 : Byte)
    (h : ¬ (b1.val < (acceptRange p0).1 ∨ (acceptRange p0).2 < b1.val)) :
    0x80 ≤ b1.val ∧ b1.val ≤ 0xBF ∧ (p0.val = 0xE0 → 0xA0 ≤ b1.val) ∧
    (p0.val = 0xED → b1.val ≤ 0x9F) ∧ (p0.val = 0xF0 → 0x90 ≤ b1.val) ∧
    (p0.val = 0xF4 → b1.val ≤ 0x8F) := by
  unfold acceptRange at h
  split_ifs at h <;> simp at h <;> omega

theorem EncodeRune_two (p0 b1 : Byte) (h0 : 0xC2 ≤ p0.val ∧ p0.val ≤ 0xDF)
    (h1 : 0x80 ≤ b1.val ∧ b1.val ≤ 0xBF) :
    EncodeRune ((p0.val % 32) * 64 + b1.val % 64) = [p0, b1] := by
  unfold EncodeRune
  split_ifs <;> first | omega | (simp [byte_eq_iff]; omega)

theorem EncodeRune_three (p0 b1 b2 : Byte) (h0 : 0xE0 ≤ p0.val ∧ p0.val ≤ 0xEF)
    (h1 : 0x80 ≤ b1.val ∧ b1.val ≤ 0xBF) (hE0 : p0.val = 0xE0 → 0xA0 ≤ b1.val)
    (hED : p0.val = 0xED → b1.val ≤ 0x9F) (h2 : 0x80 ≤ b2.val ∧ b2.val ≤ 0xBF) :
    EncodeRune ((p0.val % 16) * 4096 + (b1.val % 64) * 64 + b2.val % 64) = [p0, b1, b2] := by
  unfold EncodeRune
  split_ifs <;> first | omega | (simp [byte_eq_iff]; omega)

theorem EncodeRune_four (p0 b1 b2 b3 : Byte) (h0 : 0xF0 ≤ p0.val ∧ p0.val ≤ 0xF4)
    (h1 : 0x80 ≤ b1.val ∧ b1.val ≤ 0xBF) (hF0 : p0.val = 0xF0 → 0x90 ≤ b1.val)
    (hF4 : p0.val = 0xF4 → b1.val ≤ 0x8F) (h2 : 0x80 ≤ b2.val ∧ b2.val ≤ 0xBF)
    (h3 : 0x80 ≤ b3.val ∧ b3.val ≤ 0xBF) :
    EncodeRune ((p0.val % 8) * 262144 + (b1.val % 64) * 4096 + (b2.val % 64) * 64
      + b3.val % 64) = [p0, b1, b2, b3] := by
  unfold EncodeRune
  split_ifs <;> first | omega | (simp [byte_eq_iff]; omega)


/-- Shape of a valid multi-byte decoding: the input starts with the encoding
`enc` of the decoded rune, whose bytes are all at least `0x80`, and the
decoding does not depend on what follows `enc`. -/
theorem DecodeRune_valid (p0 : Byte) (rest : GoString) (hhi : ¬ p0.val < 0x80)
    (hv : ¬ ((DecodeRune (p0 :: rest)).1 = RuneError ∧ (DecodeRune (p0 :: rest)).2 = 1)) :
    ∃ enc tail, p0 :: rest = enc ++ tail ∧ enc.length = (DecodeRune (p0 :: rest)).2 ∧
      EncodeRune (DecodeRune (p0 :: rest)).1 = enc ∧ (∀ b ∈ enc, 0x80 ≤ b.val) ∧
      (∀ tail', DecodeRune (enc ++ tail') = DecodeRune (p0 :: rest)) ∧
      1 ≤ enc.length := by
  rcases leadSize_cases p0 with ⟨hl, -⟩ | ⟨hl, hr⟩ | ⟨hl, hr⟩ | ⟨hl, hr⟩
  · exact absurd (by simp [DecodeRune, hhi, hl]) hv
  · cases rest with
    | nil => exact absurd (by simp [DecodeRune, hhi, hl]) hv
    | cons b1 rest1 =>
      by_cases ha : b1.val < (acceptRange p0).1 ∨ (acceptRange p0).2 < b1.val
      · exact absurd (by simp [DecodeRune, hhi, hl, ha]) hv
      · have hb := acceptRange_bounds p0 b1 ha
        refine ⟨[p0, b1], rest1, rfl, ?_, ?_, ?_, ?_, by simp⟩
        · simp [DecodeRune, hhi, hl, ha]
        · simp only [DecodeRune, hhi, hl, ha, if_false, if_true]
          exact EncodeRune_two p0 b1 hr ⟨hb.1, hb.2.1⟩
        · intro b hb'
          simp at hb'
          rcases hb' with rfl | rfl <;> omega
        · intro tail'
          simp [DecodeRune, hhi, hl, ha]
  · have hl2 : ¬ leadSize p0 = 2 := by omega
    cases rest with
    | nil => exact absurd (by simp [DecodeRune, hhi, hl]) hv
    | cons b1 rest1 =>
      by_cases ha : b1.val < (acceptRange p0).1 ∨ (acceptRange p0).2 < b1.val
      · exact absurd (by simp [DecodeRune, hhi, hl, ha]) hv
      · have hb := acceptRange_bounds p0 b1 ha
        cases rest1 with
        | nil => exact absurd (by simp [DecodeRune, hhi, hl, ha]) hv
        | cons b2 rest2 =>
          by_cases hc : isCont b2 = true
          · have hc' : 0x80 ≤ b2.val ∧ b2.val ≤ 0xBF := by simpa [isCont] using hc
            refine ⟨[p0, b1, b2], rest2, rfl, ?_, ?_, ?_, ?_, by simp⟩
            · simp [DecodeRune, hhi, hl, ha, hc]
            · simp only [DecodeRune, hhi, hl, hl2, ha, hc, if_false, if_true, Bool.not_true,
                Bool.false_eq_true]
              exact EncodeRune_three p0 b1 b2 hr ⟨hb.1, hb.2.1⟩ hb.2.2.1 hb.2.2.2.1 hc'
            · intro b hb'
              simp at hb'
              rcases hb' with rfl | rfl | rfl <;> omega
            · intro tail'
              simp [DecodeRune, hhi, hl, ha, hc]
          · exact absurd (by simp [DecodeRune, hhi, hl, ha, hc]) hv
  · have hl2 : ¬ leadSize p0 = 2 := by omega
    have hl3 : ¬ leadSize p0 = 3 := by omega
    cases rest with
    | nil => exact absurd (by simp [DecodeRune, hhi, hl]) hv
    | cons b1 rest1 =>
      by_cases ha : b1.val < (acceptRange p0).1 ∨ (acceptRange p0).2 < b1.val
      · exact absurd (by simp [DecodeRune, hhi, hl, ha]) hv
      · have hb := acceptRange_bounds p0 b1 ha
        cases rest1 with
        | nil => exact absurd (by simp [DecodeRune, hhi, hl, ha]) hv
        | cons b2 rest2 =>
          by_cases hc : isCont b2 = true
          · have hc' : 0x80 ≤ b2.val ∧ b2.val ≤ 0xBF := by simpa [isCont] using hc
            cases rest2 with
            | nil => exact absurd (by simp [DecodeRune, hhi, hl, ha, hc]) hv
            | cons b3 rest3 =>
              by_cases hd : isCont b3 = true
              · have hd' : 0x80 ≤ b3.val ∧ b3.val ≤ 0xBF := by simpa [isCont] using hd
                refine ⟨[p0, b1, b2, b3], rest3, rfl, ?_, ?_, ?_, ?_, by simp⟩
                · simp [DecodeRune, hhi, hl, ha, hc, hd]
                · simp only [DecodeRune, hhi, hl, hl2, hl3, ha, hc, hd, if_false, if_true,
                    Bool.not_true, Bool.false_eq_true]
                  exact EncodeRune_four p0 b1 b2 b3 hr ⟨hb.1, hb.2.1⟩ hb.2.2.2.2.1
                    hb.2.2.2.2.2 hc' hd'
                · intro b hb'
                  simp at hb'
                  rcases hb' with rfl | rfl | rfl | rfl <;> omega
                · intro tail'
                  simp [DecodeRune, hhi, hl, ha, hc, hd]
              · exact absurd (by simp [DecodeRune, hhi, hl, ha, hc, hd]) hv
          · exact absurd (by simp [DecodeRune, hhi, hl, ha, hc]) hv

theorem byte_val_of_lt (n : Nat) (h : n < 256) : (byte n).val = n := by
  simp [byte]; omega

theorem DecodeRune_EncodeRune (r : Nat) (hr : r < 0xD800 ∨ (0xDFFF < r ∧ r < 0x110000))
    (rest : GoString) :
    DecodeRune (EncodeRune r ++ rest) = (r, (EncodeRune r).length) := by
  unfold EncodeRune
  split_ifs with h1 h2 h3 h4
  · have e0 : (byte r).val = r := byte_val_of_lt _ (by omega)
    have c0 : r < 128 := by omega
    simp [DecodeRune, e0, c0]
  · have e0 : (byte (0xC0 + r / 64)).val = 0xC0 + r / 64 := byte_val_of_lt _ (by omega)
    have e1 : (byte (0x80 + r % 64)).val = 0x80 + r % 64 := byte_val_of_lt _ (by omega)
    have c0 : ¬ 0xC0 + r / 64 < 128 := by omega
    have l2 : leadSize (byte (0xC0 + r / 64)) = 2 := by
      simp only [leadSize, e0]; split_ifs <;> omega
    have a : acceptRange (byte (0xC0 + r / 64)) = (0x80, 0xBF) := by
      simp only [acceptRange, e0]; split_ifs <;> first | omega | rfl
    have c1 : ¬ (0x80 + r % 64 < 0x80 ∨ 0xBF < 0x80 + r % 64) := by omega
    simp only [List.cons_append, List.nil_append, DecodeRune, e0, e1, c0, l2, a, c1, if_false,
      if_true, List.length_cons, List.length_nil]
    simp
    omega
  · omega
  · have e0 : (byte (0xE0 + r / 4096)).val = 0xE0 + r / 4096 := byte_val_of_lt _ (by omega)
    have e1 : (byte (0x80 + r / 64 % 64)).val = 0x80 + r / 64 % 64 := byte_val_of_lt _ (by omega)
    have e2 : (byte (0x80 + r % 64)).val = 0x80 + r % 64 := byte_val_of_lt _ (by omega)
    have c0 : ¬ 0xE0 + r / 4096 < 128 := by omega
    have l0 : ¬ leadSize (byte (0xE0 + r / 4096)) = 0 := by
      simp only [leadSize, e0]; split_ifs <;> first | omega | exact not_false
    have l2 : ¬ leadSize (byte (0xE0 + r / 4096)) = 2 := by
      simp only [leadSize, e0]; split_ifs <;> omega
    have l3 : leadSize (byte (0xE0 + r / 4096)) = 3 := by
      simp only [leadSize, e0]; split_ifs <;> omega
    have c1 : ¬ (0x80 + r / 64 % 64 < (acceptRange (byte (0xE0 + r / 4096))).1
        ∨ (acceptRange (byte (0xE0 + r / 4096))).2 < 0x80 + r / 64 % 64) := by
      simp only [acceptRange, e0]; split_ifs <;> simp <;> omega
    have c2 : isCont (byte (0x80 + r % 64)) = true := by
      simp only [isCont, e2, Bool.and_eq_true, decide_eq_true_eq]; omega
    simp only [List.cons_append, List.nil_append, DecodeRune, e0, e1, e2, c0, l0, l2, l3, c1, c2,
      if_false, if_true, List.length_cons, List.length_nil, Bool.not_true, Bool.false_eq_true]
    simp
    omega
  · have e0 : (byte (0xF0 + r / 262144)).val = 0xF0 + r / 262144 := byte_val_of_lt _ (by omega)
    have e1 : (byte (0x80 + r / 4096 % 64)).val = 0x80 + r / 4096 % 64 :=
      byte_val_of_lt _ (by omega)
    have e2 : (byte (0x80 + r / 64 % 64)).val = 0x80 + r / 64 % 64 := byte_val_of_lt _ (by omega)
    have e3 : (byte (0x80 + r % 64)).val = 0x80 + r % 64 := byte_val_of_lt _ (by omega)
    have c0 : ¬ 0xF0 + r / 262144 < 128 := by omega
    have l0 : ¬ leadSize (byte (0xF0 + r / 262144)) = 0 := by
      simp only [leadSize, e0]; split_ifs <;> first | omega | exact not_false
    have l2 : ¬ leadSize (byte (0xF0 + r / 262144)) = 2 := by
      simp only [leadSize, e0]; split_ifs <;> omega
    have l3 : ¬ leadSize (byte (0xF0 + r / 262144)) = 3 := by
      simp only [leadSize, e0]; split_ifs <;> omega
    have c1 : ¬ (0x80 + r / 4096 % 64 < (acceptRange (byte (0xF0 + r / 262144))).1
        ∨ (acceptRange (byte (0xF0 + r / 262144))).2 < 0x80 + r / 4096 % 64) := by
      simp only [acceptRange, e0]; split_ifs <;> simp <;> omega
    have c2 : isCont (byte (0x80 + r / 64 % 64)) = true := by
      simp only [isCont, e2, Bool.and_eq_true, decide_eq_true_eq]; omega
    have c3 : isCont (byte (0x80 + r % 64)) = true := by
      simp only [isCont, e3, Bool.and_eq_true, decide_eq_true_eq]; omega
    simp only [List.cons_append, List.nil_append, DecodeRune, e0, e1, e2, e3, c0, l0, l2, l3, c1,
      c2, c3, if_false, if_true, List.length_cons, List.length_nil, Bool.not_true,
      Bool.false_eq_true]
    simp
    omega


theorem EncodeRune_length_pos (r : Nat) : 1 ≤ (EncodeRune r).length := by
  unfold EncodeRune
  split_ifs <;> simp

theorem EncodeRune_ascii_iff (r : Nat) (p0 : Byte) (t : GoString)
    (he : EncodeRune r = p0 :: t) (hb : p0.val < 0x80) : t = [] ∧ r ≤ 0x7F := by
  unfold EncodeRune at he
  split_ifs at he with h1 h2 h3 h4
  · simp only [List.cons.injEq] at he
    exact ⟨he.2.symm, h1⟩
  all_goals
    simp only [List.cons.injEq] at he
    have h := he.1
    rw [← h] at hb
    first
      | (simp [byte] at hb; omega)
      | simp +decide at hb

theorem validFuel_EncodeRune_append (r : Nat)
    (hr : r < 0xD800 ∨ (0xDFFF < r ∧ r < 0x110000)) (rest : GoString) (n : Nat) :
    validFuel (n + 1) (EncodeRune r ++ rest) = validFuel n rest := by
  have hd := DecodeRune_EncodeRune r hr rest
  have hl := EncodeRune_length_pos r
  cases he : EncodeRune r with
  | nil => rw [he] at hl; simp at hl
  | cons p0 t =>
    rw [he] at hd hl
    simp only [List.cons_append] at hd ⊢
    rw [validFuel]
    by_cases hb : p0.val < 0x80
    · simp only [hb, if_true]
      rw [(EncodeRune_ascii_iff r p0 t he hb).1]; rfl
    · simp only [hb, if_false, hd]
      have hne : ¬ (r = RuneError ∧ (p0 :: t).length = 1) := by
        intro ⟨_, h2⟩
        have ht : t = [] := by
          simp only [List.length_cons] at h2
          exact List.length_eq_zero.1 (by omega)
        subst ht
        unfold EncodeRune at he
        split_ifs at he with h1
        · simp only [List.cons.injEq, and_true] at he
          rw [← he] at hb
          simp [byte] at hb
          omega
        all_goals simp at he
      simp only [hne, if_false]
      have : p0 :: (t ++ rest) = (p0 :: t) ++ rest := rfl
      rw [this, List.drop_left]

/-- Every source text is valid UTF-8 once encoded. -/
theorem validFuel_str (cs : List Char) : ∀ n, (cs.flatMap (fun c => EncodeRune c.toNat)).length ≤ n →
    validFuel n (cs.flatMap (fun c => EncodeRune c.toNat)) = true := by
  induction cs with
  | nil => intro n _; cases n <;> rfl
  | cons c cs ih =>
    intro n hn
    simp only [List.flatMap_cons, List.length_append] at hn ⊢
    have hl := EncodeRune_length_pos c.toNat
    obtain ⟨n', rfl⟩ : ∃ n', n = n' + 1 := ⟨n - 1, by omega⟩
    have hval : c.toNat < 0xD800 ∨ (0xDFFF < c.toNat ∧ c.toNat < 0x110000) := by
      have := c.valid
      simp only [UInt32.isValidChar, Nat.isValidChar] at this
      exact this
    rw [validFuel_EncodeRune_append c.toNat hval _ n']
    exact ih n' (by omega)

theorem ValidString_str (s : String) : ValidString (str s) = true :=
  validFuel_str s.data _ (Nat.le_refl _)

/-! ## `encoding/json`: what is written is read back -/

theorem hexVal_hexDigit (k : Nat) (h : k < 16) : hexVal (hexDigit k) = some k := by
  interval_cases k <;> decide

theorem stringFuel_closed (m : Nat) (c : Byte) (inp acc rest : GoString)
    (h : stringStep c inp = .closed rest) :
    stringFuel (m + 1) (c :: inp) acc = .ok (acc, rest) := by
  rw [stringFuel, h]

theorem stringFuel_piece (m : Nat) (c : Byte) (inp acc out rest : GoString)
    (h : stringStep c inp = .piece out rest) :
    stringFuel (m + 1) (c :: inp) acc = stringFuel m rest (acc ++ out) := by
  rw [stringFuel, h]

theorem stringStep_plain (c : Byte) (inp : GoString)
    (h1 : c.val ≠ 0x22) (h2 : c.val ≠ 0x5C) (h3 : ¬ c.val < 0x20) (h4 : c.val < 0x80) :
    stringStep c inp = .piece [c] inp := by
  simp [stringStep, h1, h2, h3, h4]

theorem stringStep_unicode (h1 h2 h3 h4 : Byte) (a b c d : Nat) (inp : GoString)
    (e1 : hexVal h1 = some a) (e2 : hexVal h2 = some b) (e3 : hexVal h3 = some c)
    (e4 : hexVal h4 = some d)
    (hs : ¬ (0xD800 ≤ a * 4096 + b * 256 + c * 16 + d ∧ a * 4096 + b * 256 + c * 16 + d < 0xE000)) :
    stringStep 0x5C (0x75 :: h1 :: h2 :: h3 :: h4 :: inp)
      = .piece (EncodeRune (a * 4096 + b * 256 + c * 16 + d)) inp := by
  have e : (((0 * 16 + a) * 16 + b) * 16 + c) * 16 + d = a * 4096 + b * 256 + c * 16 + d := by
    omega
  simp only [stringStep, escapeStep, unicodeStep, scanHex4, e1, e2, e3, e4, e, hs, if_false]
  rfl

theorem EncodeRune_ascii (b : Byte) (hb : b.val < 0x80) : EncodeRune b.val = [b] := by
  have h : b.val ≤ 0x7F := by omega
  simp [EncodeRune, h, byte_val]

/-- The escaped form of an ASCII byte outside `htmlSafeSet` is read back as
that byte. -/
theorem stringStep_escapeByte (b : Byte) (inp : GoString) (hb : b.val < 0x80) :
    ∃ c rest, escapeByte b ++ inp = c :: rest ∧ stringStep c rest = .piece [b] inp := by
  have hlt := b.isLt
  unfold escapeByte
  split_ifs with h1 h2 h3 h4
  · refine ⟨0x5C, b :: inp, rfl, ?_⟩
    rcases h1 with h | h <;> simp +decide [stringStep, escapeStep, h]
  · have e : b = 0x0A := Fin.ext h2
    subst e
    exact ⟨0x5C, 0x6E :: inp, rfl, rfl⟩
  · have e : b = 0x0D := Fin.ext h3
    subst e
    exact ⟨0x5C, 0x72 :: inp, rfl, rfl⟩
  · have e : b = 0x09 := Fin.ext h4
    subst e
    exact ⟨0x5C, 0x74 :: inp, rfl, rfl⟩
  · refine ⟨0x5C, 0x75 :: 0x30 :: 0x30 :: hexDigit (b.val / 16) :: hexDigit (b.val % 16) :: inp,
      rfl, ?_⟩
    have hu := stringStep_unicode 0x30 0x30 (hexDigit (b.val / 16)) (hexDigit (b.val % 16))
      0 0 (b.val / 16) (b.val % 16) inp (by decide) (by decide)
      (hexVal_hexDigit _ (by omega)) (hexVal_hexDigit _ (by omega)) (by omega)
    have e : 0 * 4096 + 0 * 256 + b.val / 16 * 16 + b.val % 16 = b.val := by omega
    rw [e, EncodeRune_ascii b hb] at hu
    exact hu


theorem stringStep_multibyte (b : Byte) (t enc tail tail' : GoString)
    (hsplit : b :: t = enc ++ tail) (hlen : enc.length = (DecodeRune (b :: t)).2)
    (henc : EncodeRune (DecodeRune (b :: t)).1 = enc) (hhi : ∀ x ∈ enc, 0x80 ≤ x.val)
    (hdec : DecodeRune (enc ++ tail') = DecodeRune (b :: t)) (hne : 1 ≤ enc.length) :
    ∃ r, enc ++ tail' = b :: r ∧ stringStep b r = .piece enc tail' := by
  cases enc with
  | nil => simp at hne
  | cons e erest =>
    simp only [List.cons_append, List.cons.injEq] at hsplit
    obtain ⟨rfl, -⟩ := hsplit
    have hb : 0x80 ≤ b.val := hhi b (by simp)
    refine ⟨erest ++ tail', rfl, ?_⟩
    have h1 : b.val ≠ 0x22 := by omega
    have h2 : b.val ≠ 0x5C := by omega
    have h3 : ¬ b.val < 0x20 := by omega
    have h4 : ¬ b.val < 0x80 := by omega
    have hdec' : DecodeRune (b :: (erest ++ tail')) = DecodeRune (b :: t) := hdec
    simp only [stringStep, h1, h2, h3, h4, if_false, hdec', henc]
    rw [← hlen]
    have : b :: (erest ++ tail') = (b :: erest) ++ tail' := rfl
    rw [this, List.drop_left]

theorem coerceFuel_of_valid (n : Nat) : ∀ (s : GoString), s.length ≤ n →
    validFuel n s = true → coerceFuel n s = s := by
  induction n with
  | zero =>
    intro s hs _
    have : s = [] := List.length_eq_zero.1 (by omega)
    subst this; rfl
  | succ n ih =>
    intro s hs hv
    cases s with
    | nil => rfl
    | cons b t =>
      simp only [List.length_cons, Nat.add_le_add_iff_right] at hs
      simp only [validFuel] at hv
      simp only [coerceFuel]
      by_cases hb : b.val < 0x80
      · simp only [hb, if_true] at hv ⊢
        rw [ih t hs hv]
      · simp only [hb, if_false] at hv ⊢
        by_cases hbad : (DecodeRune (b :: t)).1 = RuneError ∧ (DecodeRune (b :: t)).2 = 1
        · simp [hbad] at hv
        · simp only [hbad, if_false] at hv ⊢
          have hp : 1 ≤ (DecodeRune (b :: t)).2 := by
            obtain ⟨enc, tail, -, hlen, -, -, -, hne⟩ := DecodeRune_valid b t hb hbad
            omega
          rw [ih _ (by simp only [List.length_drop, List.length_cons]; omega) hv]
          exact List.take_append_drop _ _

theorem toValidUTF8_of_valid (s : GoString) (hv : ValidString s = true) : toValidUTF8 s = s :=
  coerceFuel_of_valid s.length s (Nat.le_refl _) hv

/-- Reading back what the encoder wrote for `s`: the string `s` coerced to valid
UTF-8. -/
theorem stringFuel_escapeFuel_coerce (n : Nat) : ∀ (s : GoString), s.length ≤ n →
    ∀ (m : Nat) (rest acc : GoString), (escapeFuel n s).length < m →
      stringFuel m (escapeFuel n s ++ 0x22 :: rest) acc = .ok (acc ++ coerceFuel n s, rest) := by
  induction n with
  | zero =>
    intro s hs m rest acc hm
    have : s = [] := List.length_eq_zero.1 (by omega)
    subst this
    obtain ⟨m', rfl⟩ : ∃ m', m = m' + 1 := ⟨m - 1, by omega⟩
    simp only [escapeFuel, coerceFuel, List.nil_append, List.append_nil]
    exact stringFuel_closed m' 0x22 rest acc rest rfl
  | succ n ih =>
    intro s hs m rest acc hm
    cases s with
    | nil =>
      obtain ⟨m', rfl⟩ : ∃ m', m = m' + 1 := ⟨m - 1, by omega⟩
      simp only [escapeFuel, coerceFuel, List.nil_append, List.append_nil]
      exact stringFuel_closed m' 0x22 rest acc rest rfl
    | cons b t =>
      have hm0 : 0 < m := by omega
      obtain ⟨m', rfl⟩ : ∃ m', m = m' + 1 := ⟨m - 1, by omega⟩
      simp only [List.length_cons, Nat.add_le_add_iff_right] at hs
      simp only [escapeFuel] at hm ⊢
      simp only [coerceFuel]
      by_cases hb : b.val < 0x80
      · simp only [hb, if_true] at hm ⊢
        by_cases hsafe : htmlSafe b = true
        · simp only [hsafe, if_true] at hm ⊢
          have h1 : b.val ≠ 0x22 := by
            intro h; simp [htmlSafe, h] at hsafe
          have h2 : b.val ≠ 0x5C := by
            intro h; simp [htmlSafe, h] at hsafe
          have h3 : ¬ b.val < 0x20 := by
            intro h
            simp only [htmlSafe, Bool.and_eq_true, decide_eq_true_eq] at hsafe
            omega
          simp only [List.singleton_append, List.cons_append, List.nil_append]
          rw [stringFuel_piece _ _ _ _ _ _ (stringStep_plain b _ h1 h2 h3 hb)]
          rw [ih t hs m' rest (acc ++ [b]) (by simp at hm; omega)]
          simp
        · simp only [hsafe] at hm ⊢
          obtain ⟨c, r, e, hstep⟩ :=
            stringStep_escapeByte b (escapeFuel n t ++ 0x22 :: rest) hb
          have hlen : 2 ≤ (escapeByte b).length := by
            unfold escapeByte; split_ifs <;> simp
          simp only [Bool.false_eq_true, if_false, List.append_assoc] at hm ⊢
          rw [e, stringFuel_piece _ _ _ _ _ _ hstep]
          rw [ih t hs m' rest (acc ++ [b]) (by simp at hm; omega)]
          simp
      · simp only [hb, if_false] at hm ⊢
        by_cases hbad : (DecodeRune (b :: t)).1 = RuneError ∧ (DecodeRune (b :: t)).2 = 1
        · simp only [hbad, and_self, if_true] at hm ⊢
          have hu := stringStep_unicode 0x66 0x66 0x66 0x64 15 15 15 13
            (escapeFuel n t ++ 0x22 :: rest) (by decide) (by decide) (by decide) (by decide)
            (by omega)
          have e : EncodeRune (15 * 4096 + 15 * 256 + 15 * 16 + 13) = [0xEF, 0xBF, 0xBD] := by
            decide
          rw [e] at hu
          have hstr : str "\\ufffd" ++ escapeFuel n t ++ 0x22 :: rest
              = 0x5C :: 0x75 :: 0x66 :: 0x66 :: 0x66 :: 0x64
                  :: (escapeFuel n t ++ 0x22 :: rest) := by
            have : str "\\ufffd" = [0x5C, 0x75, 0x66, 0x66, 0x66, 0x64] := by decide
            rw [this]; simp
          have hl : (str "\\ufffd").length = 6 := by decide
          rw [hstr, stringFuel_piece _ _ _ _ _ _ hu]
          rw [ih t hs m' rest (acc ++ [0xEF, 0xBF, 0xBD])
            (by simp only [List.length_append, hl] at hm; omega)]
          simp
        · simp only [hbad, if_false] at hm ⊢
          obtain ⟨enc, tail, hsplit, hlen, henc, hhi, hdec, hne⟩ := DecodeRune_valid b t hb hbad
          have hdrop : (b :: t).drop (DecodeRune (b :: t)).2 = tail := by
            rw [← hlen, hsplit, List.drop_left]
          have htake : (b :: t).take (DecodeRune (b :: t)).2 = enc := by
            rw [← hlen, hsplit, List.take_left]
          have htl : tail.length ≤ n := by
            have := congrArg List.length hsplit
            simp at this
            omega
          rw [hdrop] at hm ⊢
          rw [htake]
          by_cases hsep : (DecodeRune (b :: t)).1 = 0x2028 ∨ (DecodeRune (b :: t)).1 = 0x2029
          · simp only [hsep, if_true] at hm ⊢
            have hu := stringStep_unicode 0x32 0x30 0x32 (hexDigit ((DecodeRune (b :: t)).1 % 16))
              2 0 2 ((DecodeRune (b :: t)).1 % 16) (escapeFuel n tail ++ 0x22 :: rest)
              (by decide) (by decide) (by decide) (hexVal_hexDigit _ (by omega)) (by omega)
            have e : 2 * 4096 + 0 * 256 + 2 * 16 + (DecodeRune (b :: t)).1 % 16
                = (DecodeRune (b :: t)).1 := by omega
            rw [e, henc] at hu
            have hstr : str "\\u202" ++ [hexDigit ((DecodeRune (b :: t)).1 % 16)]
                ++ escapeFuel n tail ++ 0x22 :: rest
                = 0x5C :: 0x75 :: 0x32 :: 0x30 :: 0x32
                    :: hexDigit ((DecodeRune (b :: t)).1 % 16)
                    :: (escapeFuel n tail ++ 0x22 :: rest) := by
              have : str "\\u202" = [0x5C, 0x75, 0x32, 0x30, 0x32] := by decide
              rw [this]; simp
            rw [hstr, stringFuel_piece _ _ _ _ _ _ hu]
            rw [ih tail htl m' rest (acc ++ enc) (by simp at hm; omega)]
            simp
          · simp only [hsep, if_false] at hm ⊢
            rw [htake] at hm
            obtain ⟨r, e, hstep⟩ := stringStep_multibyte b t enc tail
              (escapeFuel n tail ++ 0x22 :: rest) hsplit hlen henc hhi (hdec _) hne
            rw [List.append_assoc, e, stringFuel_piece _ _ _ _ _ _ hstep]
            rw [ih tail htl m' rest (acc ++ enc) (by simp at hm; omega)]
            simp

theorem skipSpace_nonspace (c : Byte) (rest : GoString) (h : isSpace c = false) :
    skipSpace (c :: rest) = c :: rest := by
  simp [skipSpace, h]

theorem parseValue_object (f : Nat) (rest rest1 : GoString) (c1 : Byte)
    (h : skipSpace rest = c1 :: rest1) (hc : c1.val ≠ 0x7D) :
    parseValue (f + 1) (0x7B :: rest) = parseMembers f (c1 :: rest1) [] := by
  rw [parseValue, skipSpace_nonspace _ _ (by decide)]
  simp only [h]
  simp +decide [hc]

theorem parseValue_string (f : Nat) (rest rest1 s : GoString)
    (h : stringLit rest = .ok (s, rest1)) :
    parseValue (f + 1) (0x22 :: rest) = .ok (.string s, rest1) := by
  rw [parseValue, skipSpace_nonspace _ _ (by decide)]
  simp only [h]
  simp +decide

theorem parseMembers_last (f : Nat) (rest rest1 rest2 rest3 rest4 key : GoString) (v : Json)
    (acc : List (GoString × Json))
    (hk : stringLit rest = .ok (key, rest1)) (hc : skipSpace rest1 = 0x3A :: rest2)
    (hv : parseValue f rest2 = .ok (v, rest3)) (he : skipSpace rest3 = 0x7D :: rest4) :
    parseMembers (f + 1) (0x22 :: rest) acc = .ok (.object (acc ++ [(key, v)]), rest4) := by
  rw [parseMembers, skipSpace_nonspace _ _ (by decide)]
  simp only [hk, hc, hv, he]
  simp +decide

/-- A string literal written by the encoder is read back as the string it was
written from, coerced to valid UTF-8. -/
theorem stringLit_escape (s rest : GoString) :
    stringLit (escapeFuel s.length s ++ 0x22 :: rest) = .ok (toValidUTF8 s, rest) := by
  unfold stringLit toValidUTF8
  have h := stringFuel_escapeFuel_coerce s.length s (Nat.le_refl _)
    (escapeFuel s.length s ++ 0x22 :: rest).length rest [] (by simp)
  simpa using h

theorem stringLit_s3Link (rest : GoString) :
    stringLit (0x73 :: 0x33 :: 0x4C :: 0x69 :: 0x6E :: 0x6B :: 0x22 :: rest)
      = .ok (str "s3Link", rest) := by
  have h := stringLit_escape (str "s3Link") rest
  have e : escapeFuel (str "s3Link").length (str "s3Link")
      = [0x73, 0x33, 0x4C, 0x69, 0x6E, 0x6B] := by decide
  have e' : toValidUTF8 (str "s3Link") = str "s3Link" := by decide
  rw [e, e'] at h
  exact h

/-- The body written by `json.Marshal` for a `Response` parses to the object
with the single member `s3Link`, whose value is the link coerced to valid
UTF-8. -/
theorem parseJSON_marshalResponse (s : GoString) :
    parseJSON (marshalResponse { S3Link := s }).1
      = .ok (.object [(str "s3Link", .string (toValidUTF8 s))]) := by
  have hdata : (marshalResponse { S3Link := s }).1 ++ [0x20]
      = 0x7B :: 0x22 :: 0x73 :: 0x33 :: 0x4C :: 0x69 :: 0x6E :: 0x6B :: 0x22 :: 0x3A :: 0x22
          :: (escapeFuel s.length s ++ 0x22 :: [0x7D, 0x20]) := by
    have e1 : str "\x7b\"s3Link\":"
        = [0x7B, 0x22, 0x73, 0x33, 0x4C, 0x69, 0x6E, 0x6B, 0x22, 0x3A] := by decide
    have e2 : str "\x7d" = [0x7D] := by decide
    simp [marshalResponse, encodeString, e1, e2]
  have hfuel : 2 * (marshalResponse { S3Link := s }).1.length + 3
      = (2 * (escapeFuel s.length s).length + 26) + 1 + 1 + 1 := by
    have := congrArg List.length hdata
    simp at this
    omega
  unfold parseJSON
  rw [hfuel, hdata]
  rw [parseValue_object _ _ _ 0x22 (skipSpace_nonspace _ _ (by decide)) (by decide)]
  rw [parseMembers_last _ _ _ _ _ _ _ _ _ (stringLit_s3Link _)
    (skipSpace_nonspace _ _ (by decide))
    (parseValue_string _ _ _ _ (stringLit_escape s _))
    (skipSpace_nonspace _ _ (by decide))]
  rfl

/-- Encoding a `Response` and decoding the result gives the link coerced to
valid UTF-8, and no error. -/
theorem response_roundtrip_coerced (s : GoString) (res : Response) :
    unmarshalResponse (marshalResponse { S3Link := s }).1 res
      = ({ S3Link := toValidUTF8 s }, none) := by
  unfold unmarshalResponse unmarshalStruct
  rw [parseJSON_marshalResponse s]
  have hf : findField responseFields (str "s3Link") none = some () := by decide
  simp [decodeMembers, hf, Response.setField, storeString]

/-- The coerced string is valid UTF-8. -/
theorem validFuel_coerceFuel (n : Nat) : ∀ (s : GoString) (m : Nat), s.length ≤ n →
    (coerceFuel n s).length ≤ m → validFuel m (coerceFuel n s) = true := by
  induction n with
  | zero =>
    intro s m hs _
    have : s = [] := List.length_eq_zero.1 (by omega)
    subst this
    cases m <;> rfl
  | succ n ih =>
    intro s m hs hm
    cases s with
    | nil => cases m <;> rfl
    | cons b t =>
      simp only [List.length_cons, Nat.add_le_add_iff_right] at hs
      simp only [coerceFuel] at hm ⊢
      by_cases hb : b.val < 0x80
      · simp only [hb, if_true] at hm ⊢
        obtain ⟨m', rfl⟩ : ∃ m', m = m' + 1 := ⟨m - 1, by simp at hm; omega⟩
        simp only [validFuel, hb, if_true]
        exact ih t m' hs (by simp at hm; omega)
      · simp only [hb, if_false] at hm ⊢
        by_cases hbad : (DecodeRune (b :: t)).1 = RuneError ∧ (DecodeRune (b :: t)).2 = 1
        · simp only [hbad, and_self, if_true] at hm ⊢
          obtain ⟨m', rfl⟩ : ∃ m', m = m' + 1 := ⟨m - 1, by simp at hm; omega⟩
          have hd : DecodeRune (0xEF :: 0xBF :: 0xBD :: coerceFuel n t) = (0xFFFD, 3) := by
            simp +decide [DecodeRune, leadSize, acceptRange, isCont]
          simp only [List.cons_append, List.nil_append]
          rw [validFuel]
          simp +decide only [hd, RuneError]
          simp only [List.drop_succ_cons, List.drop_zero]
          simp +decide
          exact ih t m' hs (by simp at hm; omega)
        · simp only [hbad, if_false] at hm ⊢
          obtain ⟨enc, tail, hsplit, hlen, henc, hhi, hdec, hne⟩ := DecodeRune_valid b t hb hbad
          have hdrop : (b :: t).drop (DecodeRune (b :: t)).2 = tail := by
            rw [← hlen, hsplit, List.drop_left]
          have htake : (b :: t).take (DecodeRune (b :: t)).2 = enc := by
            rw [← hlen, hsplit, List.take_left]
          have htl : tail.length ≤ n := by
            have := congrArg List.length hsplit
            simp at this
            omega
          rw [hdrop, htake] at hm ⊢
          obtain ⟨m', rfl⟩ : ∃ m', m = m' + 1 :=
            ⟨m - 1, by simp only [List.length_append] at hm; omega⟩
          cases enc with
          | nil => simp at hne
          | cons e erest =>
            simp only [List.cons_append, List.cons.injEq] at hsplit
            obtain ⟨rfl, -⟩ := hsplit
            have hd := hdec (coerceFuel n tail)
            simp only [List.cons_append] at hd ⊢
            rw [validFuel]
            simp only [hb, if_false, hd, hbad]
            rw [← hlen]
            have : b :: (erest ++ coerceFuel n tail) = (b :: erest) ++ coerceFuel n tail := rfl
            rw [this, List.drop_left]
            exact ih tail m' htl (by simp at hm; omega)

theorem ValidString_toValidUTF8 (s : GoString) : ValidString (toValidUTF8 s) = true :=
  validFuel_coerceFuel s.length s _ (Nat.le_refl _) (Nat.le_refl _)

/-- A string is left alone by the coercion exactly when it is valid UTF-8. -/
theorem toValidUTF8_eq_iff (s : GoString) : toValidUTF8 s = s ↔ ValidString s = true := by
  constructor
  · intro h
    have := ValidString_toValidUTF8 s
    rwa [h] at this
  · exact toValidUTF8_of_valid s

/-- Encoding a `Response` and decoding the result gives back the link exactly
when the link is valid UTF-8. -/
theorem response_roundtrip_iff (s : GoString) (res : Response) :
    (unmarshalResponse (marshalResponse { S3Link := s }).1 res).1.S3Link = s
      ↔ ValidString s = true := by
  rw [response_roundtrip_coerced s res]
  exact toValidUTF8_eq_iff s

/-- Every text (the encoding of a sequence of Unicode scalar values) comes back
unchanged from encoding and decoding a `Response`. -/
theorem response_roundtrip_text (s : String) (res : Response) :
    unmarshalResponse (marshalResponse { S3Link := str s }).1 res
      = ({ S3Link := str s }, none) := by
  rw [response_roundtrip_coerced (str s) res, toValidUTF8_of_valid _ (ValidString_str s)]

/-! ## `fmt`: decimal digits -/

/-- The digits written by `decimalFuel` are the decimal digits of `n`, most
significant first. -/
theorem decimalFuel_digits (fuel : Nat) : ∀ (n : Nat) (acc : GoString), 0 < n → n < fuel →
    decimalFuel fuel n acc
      = ((Nat.digits 10 n).reverse.map (fun d => byte (48 + d))) ++ acc := by
  induction fuel with
  | zero => intro n acc _ h; omega
  | succ fuel ih =>
    intro n acc hn hf
    rw [decimalFuel]
    have hd : Nat.digits 10 n = (n % 10) :: Nat.digits 10 (n / 10) :=
      Nat.digits_def' (by decide) hn
    by_cases h : n / 10 = 0
    · simp [h, hd]
    · simp only [h, if_false]
      rw [ih (n / 10) _ (Nat.pos_of_ne_zero h) (by omega), hd]
      simp

theorem formatNat_digits (n : Nat) (hn : 0 < n) :
    formatNat n = (Nat.digits 10 n).reverse.map (fun d => byte (48 + d)) := by
  unfold formatNat
  rw [decimalFuel_digits (n + 1) n [] hn (by omega)]
  simp

theorem formatNat_zero : formatNat 0 = [0x30] := by decide

theorem formatNat_four_digits (n : Nat) (h1 : 1000 ≤ n) (h2 : n ≤ 9999) :
    (formatNat n).length = 4 := by
  obtain ⟨k, rfl⟩ : ∃ k, n = k + 1000 := ⟨n - 1000, by omega⟩
  have e1 : (k + 1000) / 10 ≠ 0 := by omega
  have e2 : (k + 1000) / 10 / 10 ≠ 0 := by omega
  have e3 : (k + 1000) / 10 / 10 / 10 ≠ 0 := by omega
  have e4 : (k + 1000) / 10 / 10 / 10 / 10 = 0 := by omega
  simp [formatNat, decimalFuel, e1, e2, e3, e4]

/-! ## Runs of the handler, case by case -/

theorem HandleRequest_unmarshal_error (w : World) (body : GoString) (req : TTSRequest)
    (err : GoError) (h : unmarshalTTSRequest body {} = (req, some err)) :
    HandleRequest w body = (.returned { Body := err.Error, StatusCode := 400 } none, {}) := by
  simp [HandleRequest, h]

theorem HandleRequest_nil_text (w : World) (body : GoString) (req : TTSRequest)
    (h : unmarshalTTSRequest body {} = (req, none)) (ht : req.TextToTranslate = none) :
    HandleRequest w body = (.panicked nilDereference, {}) := by
  simp [HandleRequest, h, ht]

theorem HandleRequest_session_error (w : World) (body : GoString) (req : TTSRequest)
    (text : GoString) (err : GoError)
    (h : unmarshalTTSRequest body {} = (req, none)) (ht : req.TextToTranslate = some text)
    (hs : w.NewSessionWithOptions = .error err) :
    HandleRequest w body =
      (.panicked err.Error,
       { trace := [.log (str "body : " ++ text), .newSession] }) := by
  simp [HandleRequest, h, ht, hs, logPrint]

theorem HandleRequest_synthesis_error (w : World) (body : GoString) (req : TTSRequest)
    (text : GoString) (sess : Session) (err : GoError)
    (h : unmarshalTTSRequest body {} = (req, none)) (ht : req.TextToTranslate = some text)
    (hs : w.NewSessionWithOptions = .ok sess)
    (hp : w.SynthesizeSpeech (some sess) (synthesisInput { req with AwsSession := some sess })
            = .error err) :
    HandleRequest w body =
      (.returned { Body := err.Error, StatusCode := 400 } none,
       { trace := [.log (str "body : " ++ text), .newSession,
                   .synthesizeSpeech (some sess)
                     (synthesisInput { req with AwsSession := some sess })] }) := by
  simp only [synthesisInput, ht] at hp
  simp [HandleRequest, h, ht, hs, hp, logPrint, TextToSpeech, synthesisInput]

theorem HandleRequest_upload_error (w : World) (body : GoString) (req : TTSRequest)
    (text : GoString) (sess : Session) (out : SynthesizeSpeechOutput) (err : GoError)
    (h : unmarshalTTSRequest body {} = (req, none)) (ht : req.TextToTranslate = some text)
    (hs : w.NewSessionWithOptions = .ok sess)
    (hp : w.SynthesizeSpeech (some sess) (synthesisInput { req with AwsSession := some sess })
            = .ok out)
    (hu : w.Upload (some sess)
            (uploadInput w.bucket (filenameAt (w.Now 1) (w.NewV4 0)) out.AudioStream)
            = .error err) :
    HandleRequest w body =
      (.returned { Body := err.Error, StatusCode := 400 } none,
       { trace := stepsToUpload w req text sess out
                    ++ [.log err.Error, .log (str "error " ++ err.Error)],
         clockReads := 2, uuidCalls := 1 }) := by
  simp only [synthesisInput, ht] at hp
  simp [HandleRequest, h, ht, hs, hp, hu, logPrint, TextToSpeech, saveToS3, TTSRequest.setID,
    TTSRequest.setTTL, generateFilename, timeNow, stepsToUpload, synthesisInput]

theorem HandleRequest_success (w : World) (body : GoString) (req : TTSRequest)
    (text : GoString) (sess : Session) (out : SynthesizeSpeechOutput) (up : UploadOutput)
    (h : unmarshalTTSRequest body {} = (req, none)) (ht : req.TextToTranslate = some text)
    (hs : w.NewSessionWithOptions = .ok sess)
    (hp : w.SynthesizeSpeech (some sess) (synthesisInput { req with AwsSession := some sess })
            = .ok out)
    (hu : w.Upload (some sess)
            (uploadInput w.bucket (filenameAt (w.Now 1) (w.NewV4 0)) out.AudioStream)
            = .ok up) :
    HandleRequest w body =
      (.returned
         { Body := str "\x7b\"s3Link\":" ++ encodeString up.Location ++ str "\x7d",
           StatusCode := 200 } none,
       { trace := stepsToUpload w req text sess out
                    ++ [.log (str "sent speech to s3 " ++ up.Location ++ str " "),
                        .log (str "return response to gateway ")],
         clockReads := 2, uuidCalls := 1 }) := by
  simp only [synthesisInput, ht] at hp
  simp [HandleRequest, h, ht, hs, hp, hu, logPrint, TextToSpeech, saveToS3, TTSRequest.setID,
    TTSRequest.setTTL, generateFilename, timeNow, stepsToUpload, marshalResponse, synthesisInput]

theorem TextToSpeech_nil_session (w : World) (r : TTSRequest) (s : Run)
    (h : r.AwsSession = none) : TextToSpeech w r s = (.panicked nilDereference, s) := by
  simp [TextToSpeech, h]

theorem saveToS3_nil_session (w : World) (r : TTSRequest) (s : Run)
    (h : r.AwsSession = none) : saveToS3 w r s = (.panicked nilDereference, s) := by
  simp [saveToS3, h]

/-! ## The claims -/

/-- C1 (the code departs from it): on the body `{}`, and likewise on
`{"text_to_translate":null}`, decoding succeeds with a nil `TextToTranslate`,
and `HandleRequest` ends in a nil-pointer panic at the log statement of line 51
instead of returning a 400 response; no collaborator has been called. -/
theorem missing_text_panics (w : World) :
    unmarshalTTSRequest (str "\x7b\x7d") {} = ({}, none) ∧
    HandleRequest w (str "\x7b\x7d") = (.panicked nilDereference, {}) ∧
    unmarshalTTSRequest (str "\x7b\"text_to_translate\":null\x7d") {} = ({}, none) ∧
    HandleRequest w (str "\x7b\"text_to_translate\":null\x7d") = (.panicked nilDereference, {}) :=
  ⟨by decide,
   HandleRequest_nil_text w _ {} (by decide) rfl,
   by decide,
   HandleRequest_nil_text w _ {} (by decide) rfl⟩

/-- C2: when `json.Unmarshal` returns an error for the request body,
`HandleRequest` returns status 400 with that error's text as the body and a nil
Go error, and the run contains no call of the synthesis or of the upload
collaborator. -/
theorem unmarshal_error_gives_400 (w : World) (body : GoString) (req : TTSRequest)
    (err : GoError) (h : unmarshalTTSRequest body {} = (req, some err)) :
    (HandleRequest w body).1 = .returned { Body := err.Error, StatusCode := 400 } none ∧
    ∀ e ∈ (HandleRequest w body).2.trace, e.isSynthesis = false ∧ e.isUpload = false := by
  rw [HandleRequest_unmarshal_error w body req err h]
  simp

theorem unmarshal_error_gives_400_witness :
    unmarshalTTSRequest (str "\x7b\"text_to_translate\":") {} = ({}, some unexpectedEnd) ∧
    (HandleRequest exampleWorld (str "\x7b\"text_to_translate\":")).1
      = .returned { Body := str "unexpected end of JSON input", StatusCode := 400 } none :=
  ⟨by decide,
   (unmarshal_error_gives_400 exampleWorld (str "\x7b\"text_to_translate\":") {} unexpectedEnd
      (by decide)).1⟩

/-- C3: when the body decodes with the text present, the session is created and
the synthesis collaborator answers the handler's request with an error,
`HandleRequest` returns status 400 whose body is exactly that error's text, and
the run contains no call of the upload collaborator. -/
theorem synthesis_error_gives_400 (w : World) (body : GoString) (req : TTSRequest)
    (text : GoString) (sess : Session) (err : GoError)
    (h : unmarshalTTSRequest body {} = (req, none)) (ht : req.TextToTranslate = some text)
    (hs : w.NewSessionWithOptions = .ok sess)
    (hp : w.SynthesizeSpeech (some sess)
            { LanguageCode := some req.TargetPolly, OutputFormat := some (str "mp3"),
              Text := some text, VoiceId := some req.VoiceID } = .error err) :
    (HandleRequest w body).1 = .returned { Body := err.Error, StatusCode := 400 } none ∧
    ∀ e ∈ (HandleRequest w body).2.trace, e.isUpload = false := by
  have hp' : w.SynthesizeSpeech (some sess) (synthesisInput { req with AwsSession := some sess })
      = .error err := by
    simpa [synthesisInput, ht] using hp
  rw [HandleRequest_synthesis_error w body req text sess err h ht hs hp']
  simp [Event.isUpload]

theorem synthesis_error_gives_400_witness :
    unmarshalTTSRequest exampleBody {} = (exampleRequest, none) ∧
    (HandleRequest synthesisDownWorld exampleBody).1
      = .returned { Body := str "InvalidSsmlException", StatusCode := 400 } none :=
  ⟨by decide,
   (synthesis_error_gives_400 synthesisDownWorld exampleBody exampleRequest (str "hi") ⟨1⟩
      ⟨str "InvalidSsmlException"⟩ (by decide) rfl rfl rfl).1⟩

/-- C4: when the body decodes with the text present, synthesis succeeds and the
upload collaborator answers the handler's upload request with an error,
`HandleRequest` returns status 400 whose body is exactly that error's text. -/
theorem upload_error_gives_400 (w : World) (body : GoString) (req : TTSRequest)
    (text : GoString) (sess : Session) (out : SynthesizeSpeechOutput) (err : GoError)
    (h : unmarshalTTSRequest body {} = (req, none)) (ht : req.TextToTranslate = some text)
    (hs : w.NewSessionWithOptions = .ok sess)
    (hp : w.SynthesizeSpeech (some sess)
            { LanguageCode := some req.TargetPolly, OutputFormat := some (str "mp3"),
              Text := some text, VoiceId := some req.VoiceID } = .ok out)
    (hu : w.Upload (some sess)
            { Bucket := some w.bucket,
              Key := some (filenameAt (w.Now 1) (w.NewV4 0)),
              Body := out.AudioStream,
              ContentType := some (str "audio/mpeg"),
              ACL := some (str "public-read") } = .error err) :
    (HandleRequest w body).1 = .returned { Body := err.Error, StatusCode := 400 } none := by
  have hp' : w.SynthesizeSpeech (some sess) (synthesisInput { req with AwsSession := some sess })
      = .ok out := by
    simpa [synthesisInput, ht] using hp
  rw [HandleRequest_upload_error w body req text sess out err h ht hs hp' hu]

theorem upload_error_gives_400_witness :
    unmarshalTTSRequest exampleBody {} = (exampleRequest, none) ∧
    (HandleRequest uploadDownWorld exampleBody).1
      = .returned { Body := str "AccessDenied", StatusCode := 400 } none :=
  ⟨by decide,
   upload_error_gives_400 uploadDownWorld exampleBody exampleRequest (str "hi") ⟨1⟩
      ⟨some ⟨[0x49, 0x44, 0x33]⟩⟩ ⟨str "AccessDenied"⟩ (by decide) rfl rfl rfl rfl⟩

/-- C5: when the body decodes with the text present and both synthesis and
upload succeed, the object store reporting the location `L`, `HandleRequest`
returns status 200, a nil Go error and the body
`{"s3Link":<JSON string literal of L>}` written by `json.Marshal`.  The
location reported by the uploader is a URL, hence valid UTF-8, and for every
valid UTF-8 `L` this body, read as JSON, is the object with the single member
`s3Link` whose value is `L` (third part).  The second part records what the
body reads as for an arbitrary byte string `L`. -/
theorem success_gives_200_with_link (w : World) (body : GoString) (req : TTSRequest)
    (text : GoString) (sess : Session) (out : SynthesizeSpeechOutput) (up : UploadOutput)
    (h : unmarshalTTSRequest body {} = (req, none)) (ht : req.TextToTranslate = some text)
    (hs : w.NewSessionWithOptions = .ok sess)
    (hp : w.SynthesizeSpeech (some sess)
            { LanguageCode := some req.TargetPolly, OutputFormat := some (str "mp3"),
              Text := some text, VoiceId := some req.VoiceID } = .ok out)
    (hu : w.Upload (some sess)
            { Bucket := some w.bucket,
              Key := some (filenameAt (w.Now 1) (w.NewV4 0)),
              Body := out.AudioStream,
              ContentType := some (str "audio/mpeg"),
              ACL := some (str "public-read") } = .ok up) :
    (HandleRequest w body).1
      = .returned
          { Body := str "\x7b\"s3Link\":" ++ encodeString up.Location ++ str "\x7d",
            StatusCode := 200 } none ∧
    parseJSON (str "\x7b\"s3Link\":" ++ encodeString up.Location ++ str "\x7d")
      = .ok (.object [(str "s3Link", .string (toValidUTF8 up.Location))]) ∧
    (ValidString up.Location = true →
      parseJSON (str "\x7b\"s3Link\":" ++ encodeString up.Location ++ str "\x7d")
        = .ok (.object [(str "s3Link", .string up.Location)])) := by
  have hp' : w.SynthesizeSpeech (some sess) (synthesisInput { req with AwsSession := some sess })
      = .ok out := by
    simpa [synthesisInput, ht] using hp
  have hparse := parseJSON_marshalResponse up.Location
  simp only [marshalResponse] at hparse
  refine ⟨?_, hparse, ?_⟩
  · rw [HandleRequest_success w body req text sess out up h ht hs hp' hu]
  · intro hv
    rw [hparse, toValidUTF8_of_valid _ hv]

set_option maxRecDepth 20000 in
theorem success_gives_200_with_link_witness :
    unmarshalTTSRequest exampleBody {} = (exampleRequest, none) ∧
    ValidString (str "https://s3.example/2024/March/5/6ba7b810-9dad-41d1-80b4-00c04fd430c8")
      = true ∧
    (HandleRequest exampleWorld exampleBody).1
      = .returned
          { Body := str ("\x7b\"s3Link\":\"https://s3.example/2024/March/5/"
                          ++ "6ba7b810-9dad-41d1-80b4-00c04fd430c8\"\x7d"),
            StatusCode := 200 } none ∧
    parseJSON
        (str "\x7b\"s3Link\":"
          ++ encodeString
              (str "https://s3.example/2024/March/5/6ba7b810-9dad-41d1-80b4-00c04fd430c8")
          ++ str "\x7d")
      = .ok (.object
          [(str "s3Link",
            .string
              (str "https://s3.example/2024/March/5/6ba7b810-9dad-41d1-80b4-00c04fd430c8"))]) :=
  ⟨by decide, by decide,
   (success_gives_200_with_link exampleWorld exampleBody exampleRequest (str "hi") ⟨1⟩
      ⟨some ⟨[0x49, 0x44, 0x33]⟩⟩
      ⟨str "https://s3.example/2024/March/5/6ba7b810-9dad-41d1-80b4-00c04fd430c8"⟩
      (by decide) rfl rfl rfl rfl).1.trans rfl,
   (success_gives_200_with_link exampleWorld exampleBody exampleRequest (str "hi") ⟨1⟩
      ⟨some ⟨[0x49, 0x44, 0x33]⟩⟩
      ⟨str "https://s3.example/2024/March/5/6ba7b810-9dad-41d1-80b4-00c04fd430c8"⟩
      (by decide) rfl rfl rfl rfl).2.2 (by decide)⟩

/-- C6, as the code has it: for every clock reading and every id,
`generateFilename` gives `<year>/<monthName>/<day>/<id>`, the year and the day
both written by `%d` (their decimal digits, most significant first, without
padding: four digits exactly for the years 1000 to 9999) and the month by its
full English name, all taken from the clock reading made inside
`generateFilename`; with the clock at 2024-03-05 the key is `2024/March/5/`
followed by the id. -/
theorem generateFilename_format (w : World) (id : GoString) (s : Run) :
    (generateFilename w id s).1
      = formatInt (w.Now s.clockReads).Year ++ str "/" ++ (w.Now s.clockReads).Month.String
          ++ str "/" ++ formatNat (w.Now s.clockReads).Day ++ str "/" ++ id ∧
    (0 < (w.Now s.clockReads).Year →
      formatInt (w.Now s.clockReads).Year
        = (Nat.digits 10 (w.Now s.clockReads).Year.toNat).reverse.map (fun d => byte (48 + d))) ∧
    (0 < (w.Now s.clockReads).Day →
      formatNat (w.Now s.clockReads).Day
        = (Nat.digits 10 (w.Now s.clockReads).Day).reverse.map (fun d => byte (48 + d))) ∧
    (1000 ≤ (w.Now s.clockReads).Year → (w.Now s.clockReads).Year ≤ 9999 →
      (formatInt (w.Now s.clockReads).Year).length = 4) ∧
    ((w.Now s.clockReads).Year = 2024 → (w.Now s.clockReads).Month = .March →
      (w.Now s.clockReads).Day = 5 →
      (generateFilename w id s).1 = str "2024/March/5/" ++ id) := by
  refine ⟨?_, ?_, ?_, ?_, ?_⟩
  · simp [generateFilename, filenameAt, timeNow, formatInt]
  · intro h
    have hneg : ¬ (w.Now s.clockReads).Year < 0 := by omega
    simp only [formatInt, hneg, if_false]
    exact formatNat_digits _ (by omega)
  · exact formatNat_digits _
  · intro h1 h2
    have hneg : ¬ (w.Now s.clockReads).Year < 0 := by omega
    simp only [formatInt, hneg, if_false]
    exact formatNat_four_digits _ (by omega) (by omega)
  · intro hy hm hd
    have e : formatInt 2024 ++ str "/" ++ Month.String .March ++ str "/"
        ++ formatInt ((5 : Nat) : Int) ++ str "/" = str "2024/March/5/" := by decide
    simp only [generateFilename, filenameAt, timeNow, hy, hm, hd]
    rw [e]

theorem generateFilename_format_witness :
    (generateFilename exampleWorld (str "6ba7b810") {}).1 = str "2024/March/5/6ba7b810" :=
  (generateFilename_format exampleWorld (str "6ba7b810") {}).2.2.2.2 rfl rfl rfl

/-- C6, counterexample to the four-digit year: with the clock at 5 March 999
the key is `999/March/5/x`, whose first four bytes are not four digits. -/
theorem generateFilename_year_999 :
    (generateFilename year999World (str "x") {}).1 = str "999/March/5/x" ∧
    ((generateFilename year999World (str "x") {}).1.take 4).all isDigit = false := by
  decide

/-- C7, as the code has it: for every string `s` that is valid UTF-8, encoding
`Response{S3Link: s}` with `json.Marshal` and decoding the result into a
`Response` (whatever it held before) gives the link `s` and no error. -/
theorem response_roundtrip (s : GoString) (hv : ValidString s = true) (res : Response) :
    unmarshalResponse (marshalResponse { S3Link := s }).1 res = ({ S3Link := s }, none) := by
  rw [response_roundtrip_coerced s res, toValidUTF8_of_valid s hv]

theorem response_roundtrip_witness :
    ValidString (str "https://speech.s3.amazonaws.com/2024/March/5/a\"b<é€") = true ∧
    unmarshalResponse
        (marshalResponse
          { S3Link := str "https://speech.s3.amazonaws.com/2024/March/5/a\"b<é€" }).1 {}
      = ({ S3Link := str "https://speech.s3.amazonaws.com/2024/March/5/a\"b<é€" }, none) :=
  ⟨by decide, response_roundtrip _ (by decide) {}⟩

/-- C7, counterexample: the one-byte string `\xff` is not valid UTF-8;
`json.Marshal` writes it as `\ufffd`, and decoding gives the three bytes of
U+FFFD instead of the original byte. -/
theorem response_roundtrip_invalid_utf8 :
    (marshalResponse { S3Link := [0xFF] }).1 = str "\x7b\"s3Link\":\"\\ufffd\"\x7d" ∧
    unmarshalResponse (marshalResponse { S3Link := [0xFF] }).1 {}
      = ({ S3Link := [0xEF, 0xBF, 0xBD] }, none) ∧
    (unmarshalResponse (marshalResponse { S3Link := [0xFF] }).1 {}).1.S3Link ≠ [0xFF] := by
  decide


/-- C8: the identifier is drawn at most once in a run, and only in a run in
which the synthesis collaborator has answered with success: never when decoding
fails or when synthesis fails.  When synthesis succeeds it is drawn exactly
once, after the synthesis call and before the upload request, whose key is built
from that identifier (`w.NewV4 0`, the first identifier the source delivers)
whatever `id` the request body carried. -/
theorem id_drawn_once_after_synthesis (w : World) (body : GoString) :
    ((HandleRequest w body).2.trace.filter Event.isNewV4).length ≤ 1 ∧
    ((∃ e ∈ (HandleRequest w body).2.trace, e.isNewV4 = true) →
      ∃ sess input out, Event.synthesizeSpeech sess input ∈ (HandleRequest w body).2.trace ∧
        w.SynthesizeSpeech sess input = .ok out) ∧
    (∀ req err, unmarshalTTSRequest body {} = (req, some err) →
      ∀ e ∈ (HandleRequest w body).2.trace, e.isNewV4 = false) ∧
    (∀ req text sess err, unmarshalTTSRequest body {} = (req, none) →
      req.TextToTranslate = some text → w.NewSessionWithOptions = .ok sess →
      w.SynthesizeSpeech (some sess)
          { LanguageCode := some req.TargetPolly, OutputFormat := some (str "mp3"),
            Text := some text, VoiceId := some req.VoiceID } = .error err →
      ∀ e ∈ (HandleRequest w body).2.trace, e.isNewV4 = false) ∧
    (∀ req text sess out, unmarshalTTSRequest body {} = (req, none) →
      req.TextToTranslate = some text → w.NewSessionWithOptions = .ok sess →
      w.SynthesizeSpeech (some sess)
          { LanguageCode := some req.TargetPolly, OutputFormat := some (str "mp3"),
            Text := some text, VoiceId := some req.VoiceID } = .ok out →
      (HandleRequest w body).2.trace.filter Event.isNewV4 = [.newV4 (w.NewV4 0)] ∧
      ∃ post, (HandleRequest w body).2.trace
        = [.log (str "body : " ++ text),
           .newSession,
           .synthesizeSpeech (some sess)
             { LanguageCode := some req.TargetPolly, OutputFormat := some (str "mp3"),
               Text := some text, VoiceId := some req.VoiceID },
           .newV4 (w.NewV4 0),
           .now (w.Now 0),
           .now (w.Now 1),
           .log (str "s3 path " ++ filenameAt (w.Now 1) (w.NewV4 0)),
           .upload (some sess)
             { Bucket := some w.bucket,
               Key := some (filenameAt (w.Now 1) (w.NewV4 0)),
               Body := out.AudioStream,
               ContentType := some (str "audio/mpeg"),
               ACL := some (str "public-read") }] ++ post
        ∧ ∀ e ∈ post, e.isNewV4 = false ∧ e.isUpload = false) := by
  have key : ∀ req text sess out, unmarshalTTSRequest body {} = (req, none) →
      req.TextToTranslate = some text → w.NewSessionWithOptions = .ok sess →
      w.SynthesizeSpeech (some sess) (synthesisInput { req with AwsSession := some sess })
        = .ok out →
      ∃ post, (HandleRequest w body).2.trace = stepsToUpload w req text sess out ++ post
        ∧ ∀ e ∈ post, e.isNewV4 = false ∧ e.isUpload = false := by
    intro req text sess out h ht hs hp
    cases hu : w.Upload (some sess)
        (uploadInput w.bucket (filenameAt (w.Now 1) (w.NewV4 0)) out.AudioStream) with
    | error err =>
      rw [HandleRequest_upload_error w body req text sess out err h ht hs hp hu]
      refine ⟨_, rfl, ?_⟩
      intro e he
      simp at he
      rcases he with rfl | rfl <;> exact ⟨rfl, rfl⟩
    | ok up =>
      rw [HandleRequest_success w body req text sess out up h ht hs hp hu]
      refine ⟨_, rfl, ?_⟩
      intro e he
      simp at he
      rcases he with rfl | rfl <;> exact ⟨rfl, rfl⟩
  have once : ∀ req text sess out, unmarshalTTSRequest body {} = (req, none) →
      req.TextToTranslate = some text → w.NewSessionWithOptions = .ok sess →
      w.SynthesizeSpeech (some sess) (synthesisInput { req with AwsSession := some sess })
        = .ok out →
      (HandleRequest w body).2.trace.filter Event.isNewV4 = [.newV4 (w.NewV4 0)] := by
    intro req text sess out h ht hs hp
    obtain ⟨post, hpost, hno⟩ := key req text sess out h ht hs hp
    have hfil : post.filter Event.isNewV4 = [] := by
      rw [List.filter_eq_nil_iff]
      intro e he
      simp [(hno e he).1]
    rw [hpost, List.filter_append, hfil]
    simp [stepsToUpload, Event.isNewV4]
  refine ⟨?_, ?_, ?_, ?_, ?_⟩
  · rcases h : unmarshalTTSRequest body {} with ⟨req, _ | err⟩
    · cases ht : req.TextToTranslate with
      | none => rw [HandleRequest_nil_text w body req h ht]; simp
      | some text =>
        cases hs : w.NewSessionWithOptions with
        | error err =>
          rw [HandleRequest_session_error w body req text err h ht hs]
          simp [Event.isNewV4]
        | ok sess =>
          cases hp : w.SynthesizeSpeech (some sess)
              (synthesisInput { req with AwsSession := some sess }) with
          | error err =>
            rw [HandleRequest_synthesis_error w body req text sess err h ht hs hp]
            simp [Event.isNewV4]
          | ok out =>
            rw [once req text sess out h ht hs hp]
            simp
    · rw [HandleRequest_unmarshal_error w body req err h]; simp
  · rcases h : unmarshalTTSRequest body {} with ⟨req, _ | err⟩
    · cases ht : req.TextToTranslate with
      | none => rw [HandleRequest_nil_text w body req h ht]; simp
      | some text =>
        cases hs : w.NewSessionWithOptions with
        | error err =>
          rw [HandleRequest_session_error w body req text err h ht hs]
          simp [Event.isNewV4]
        | ok sess =>
          cases hp : w.SynthesizeSpeech (some sess)
              (synthesisInput { req with AwsSession := some sess }) with
          | error err =>
            rw [HandleRequest_synthesis_error w body req text sess err h ht hs hp]
            simp [Event.isNewV4]
          | ok out =>
            intro _
            obtain ⟨post, hpost, -⟩ := key req text sess out h ht hs hp
            refine ⟨some sess, synthesisInput { req with AwsSession := some sess }, out, ?_, hp⟩
            rw [hpost]
            simp [stepsToUpload]
    · rw [HandleRequest_unmarshal_error w body req err h]; simp
  · intro req err h
    rw [HandleRequest_unmarshal_error w body req err h]; simp
  · intro req text sess err h ht hs hp
    have hp' : w.SynthesizeSpeech (some sess)
        (synthesisInput { req with AwsSession := some sess }) = .error err := by
      simpa [synthesisInput, ht] using hp
    rw [HandleRequest_synthesis_error w body req text sess err h ht hs hp']
    simp [Event.isNewV4]
  · intro req text sess out h ht hs hp
    have hp' : w.SynthesizeSpeech (some sess)
        (synthesisInput { req with AwsSession := some sess }) = .ok out := by
      simpa [synthesisInput, ht] using hp
    refine ⟨once req text sess out h ht hs hp', ?_⟩
    obtain ⟨post, hpost, hno⟩ := key req text sess out h ht hs hp'
    refine ⟨post, ?_, hno⟩
    rw [hpost]
    simp [stepsToUpload, synthesisInput, uploadInput, ht]

set_option maxRecDepth 20000 in
theorem id_drawn_once_after_synthesis_witness :
    ((HandleRequest exampleWorld exampleBody).2.trace.filter Event.isNewV4).length ≤ 1 ∧
    (HandleRequest exampleWorld exampleBody).2.trace.filter Event.isNewV4
      = [.newV4 (str "6ba7b810-9dad-41d1-80b4-00c04fd430c8")] ∧
    (HandleRequest exampleWorld exampleBody).2.trace.filter Event.isUpload
      = [.upload (some ⟨1⟩)
          { Bucket := some (str "speech-bucket"),
            Key := some (str "2024/March/5/6ba7b810-9dad-41d1-80b4-00c04fd430c8"),
            Body := some ⟨[0x49, 0x44, 0x33]⟩,
            ContentType := some (str "audio/mpeg"),
            ACL := some (str "public-read") }] :=
  ⟨(id_drawn_once_after_synthesis exampleWorld exampleBody).1, by decide, by decide⟩

/-- C9: called with a record that carries a session (as `HandleRequest` always
does), `saveToS3` draws the identifier, reads the clock for the TTL and again
for the key, and issues exactly one upload request: bucket `w.bucket` (the
`S3BUCKET` setting), key built by `generateFilename` from the identifier just
drawn, body the audio stream held in the record, content type `"audio/mpeg"`,
ACL `"public-read"`.  When the object store answers with a location,
`saveToS3` returns exactly that location and a nil error; when it answers with
an error, `saveToS3` returns the empty string and that error.  In a run of
`HandleRequest` the record passed is the one returned by `TextToSpeech`, whose
audio stream is the provider's and whose session is unchanged. -/
theorem saveToS3_upload_request (w : World) (r : TTSRequest) (sess : Session) (s : Run)
    (hsess : r.AwsSession = some sess) :
    (∃ post, (saveToS3 w r s).2.trace
        = s.trace ++
          [.newV4 (w.NewV4 s.uuidCalls),
           .now (w.Now s.clockReads),
           .now (w.Now (s.clockReads + 1)),
           .log (str "s3 path " ++ filenameAt (w.Now (s.clockReads + 1)) (w.NewV4 s.uuidCalls)),
           .upload (some sess)
             { Bucket := some w.bucket,
               Key := some (filenameAt (w.Now (s.clockReads + 1)) (w.NewV4 s.uuidCalls)),
               Body := r.AudioText,
               ContentType := some (str "audio/mpeg"),
               ACL := some (str "public-read") }] ++ post
        ∧ ∀ e ∈ post, e.isUpload = false) ∧
    (generateFilename w (w.NewV4 s.uuidCalls)
        { s with clockReads := s.clockReads + 1 }).1
      = filenameAt (w.Now (s.clockReads + 1)) (w.NewV4 s.uuidCalls) ∧
    (∀ up, w.Upload (some sess)
          { Bucket := some w.bucket,
            Key := some (filenameAt (w.Now (s.clockReads + 1)) (w.NewV4 s.uuidCalls)),
            Body := r.AudioText,
            ContentType := some (str "audio/mpeg"),
            ACL := some (str "public-read") } = .ok up →
      (saveToS3 w r s).1 = .returned (up.Location, none)) ∧
    (∀ err, w.Upload (some sess)
          { Bucket := some w.bucket,
            Key := some (filenameAt (w.Now (s.clockReads + 1)) (w.NewV4 s.uuidCalls)),
            Body := r.AudioText,
            ContentType := some (str "audio/mpeg"),
            ACL := some (str "public-read") } = .error err →
      (saveToS3 w r s).1 = .returned ([], some err)) ∧
    (∀ out, w.SynthesizeSpeech (some sess) (synthesisInput r) = .ok out →
      ∃ tts, (TextToSpeech w r s).1 = .returned (.ok tts) ∧
        tts.AudioText = out.AudioStream ∧ tts.AwsSession = some sess) := by
  refine ⟨?_, ?_, ?_, ?_, ?_⟩
  · cases hu : w.Upload (some sess)
        (uploadInput w.bucket (filenameAt (w.Now (s.clockReads + 1)) (w.NewV4 s.uuidCalls))
          r.AudioText) with
    | error err =>
      simp only [uploadInput] at hu
      refine ⟨[.log err.Error], ?_, ?_⟩
      · simp [saveToS3, hsess, TTSRequest.setID, TTSRequest.setTTL, generateFilename, timeNow,
          logPrint, hu, uploadInput]
      · intro e he
        simp at he
        subst he
        rfl
    | ok up =>
      simp only [uploadInput] at hu
      refine ⟨[], ?_, ?_⟩
      · simp [saveToS3, hsess, TTSRequest.setID, TTSRequest.setTTL, generateFilename, timeNow,
          logPrint, hu, uploadInput]
      · intro e he
        simp at he
  · simp [generateFilename, timeNow]
  · intro up hu
    simp [saveToS3, hsess, TTSRequest.setID, TTSRequest.setTTL, generateFilename, timeNow,
      logPrint, uploadInput, hu]
  · intro err hu
    simp [saveToS3, hsess, TTSRequest.setID, TTSRequest.setTTL, generateFilename, timeNow,
      logPrint, uploadInput, hu]
  · intro out h
    exact ⟨{ r with AudioText := out.AudioStream }, by simp [TextToSpeech, hsess, h], rfl, hsess⟩

theorem saveToS3_upload_request_witness :
    saveToS3 exampleWorld
        { exampleRequest with AudioText := some ⟨[0x49, 0x44, 0x33]⟩, AwsSession := some ⟨1⟩ } {}
      = (.returned
           (str "https://s3.example/2024/March/5/6ba7b810-9dad-41d1-80b4-00c04fd430c8", none),
         { trace :=
             [.newV4 (str "6ba7b810-9dad-41d1-80b4-00c04fd430c8"), .now march5, .now march5,
              .log (str "s3 path 2024/March/5/6ba7b810-9dad-41d1-80b4-00c04fd430c8"),
              .upload (some ⟨1⟩)
                { Bucket := some (str "speech-bucket"),
                  Key := some (str "2024/March/5/6ba7b810-9dad-41d1-80b4-00c04fd430c8"),
                  Body := some ⟨[0x49, 0x44, 0x33]⟩,
                  ContentType := some (str "audio/mpeg"),
                  ACL := some (str "public-read") }],
           clockReads := 2, uuidCalls := 1 }) ∧
    (saveToS3 exampleWorld
        { exampleRequest with AudioText := some ⟨[0x49, 0x44, 0x33]⟩, AwsSession := some ⟨1⟩ }
        {}).1
      = .returned (str "https://s3.example/" ++ filenameAt march5 (exampleWorld.NewV4 0), none) :=
  ⟨by decide,
   (saveToS3_upload_request exampleWorld
      { exampleRequest with AudioText := some ⟨[0x49, 0x44, 0x33]⟩, AwsSession := some ⟨1⟩ }
      ⟨1⟩ {} rfl).2.2.1 _ rfl⟩

/-- C10: called with a record that carries a session (as `HandleRequest` always
does), `TextToSpeech` sends the provider exactly one request, whose language
code, voice id and text are the record's `TargetPolly`, `VoiceID` and
`TextToTranslate` and whose output format is `"mp3"`; when the provider answers
with an audio stream the returned record holds that stream and has the same
target language, voice id, text, id, link, TTL and session as before; when it
answers with an error, that error is returned. -/
theorem TextToSpeech_request_and_result (w : World) (r : TTSRequest) (sess : Session)
    (s : Run) (hsess : r.AwsSession = some sess) :
    (TextToSpeech w r s).2.trace
      = s.trace ++ [.synthesizeSpeech (some sess)
          { LanguageCode := some r.TargetPolly, OutputFormat := some (str "mp3"),
            Text := r.TextToTranslate, VoiceId := some r.VoiceID }] ∧
    (∀ out, w.SynthesizeSpeech (some sess)
          { LanguageCode := some r.TargetPolly, OutputFormat := some (str "mp3"),
            Text := r.TextToTranslate, VoiceId := some r.VoiceID } = .ok out →
      ∃ r', (TextToSpeech w r s).1 = .returned (.ok r') ∧ r'.AudioText = out.AudioStream ∧
        r'.TargetPolly = r.TargetPolly ∧ r'.VoiceID = r.VoiceID ∧
        r'.TextToTranslate = r.TextToTranslate ∧ r'.ID = r.ID ∧ r'.TTL = r.TTL ∧
        r'.S3Link = r.S3Link ∧ r'.AwsSession = r.AwsSession) ∧
    (∀ err, w.SynthesizeSpeech (some sess)
          { LanguageCode := some r.TargetPolly, OutputFormat := some (str "mp3"),
            Text := r.TextToTranslate, VoiceId := some r.VoiceID } = .error err →
      (TextToSpeech w r s).1 = .returned (.error err)) := by
  refine ⟨?_, ?_, ?_⟩
  · simp only [TextToSpeech, hsess, synthesisInput]
    split <;> rfl
  · intro out h
    refine ⟨{ r with AudioText := out.AudioStream }, ?_, rfl, rfl, rfl, rfl, rfl, rfl, rfl, rfl⟩
    simp only [TextToSpeech, hsess, synthesisInput, h]
  · intro err h
    simp only [TextToSpeech, hsess, synthesisInput, h]

theorem TextToSpeech_request_and_result_witness :
    (TextToSpeech exampleWorld { exampleRequest with AwsSession := some ⟨1⟩ } {}).2.trace
      = [.synthesizeSpeech (some ⟨1⟩)
          { LanguageCode := some (str "en-US"), OutputFormat := some (str "mp3"),
            Text := some (str "hi"), VoiceId := some (str "Joanna") }] ∧
    (TextToSpeech exampleWorld { exampleRequest with AwsSession := some ⟨1⟩ } {}).1
      = .returned
          (.ok { exampleRequest with
                   AwsSession := some ⟨1⟩, AudioText := some ⟨[0x49, 0x44, 0x33]⟩ }) :=
  ⟨(TextToSpeech_request_and_result exampleWorld
      { exampleRequest with AwsSession := some ⟨1⟩ } ⟨1⟩ {} rfl).1,
   by
    obtain ⟨r', h1, -⟩ := (TextToSpeech_request_and_result exampleWorld
      { exampleRequest with AwsSession := some ⟨1⟩ } ⟨1⟩ {} rfl).2.1
        ⟨some ⟨[0x49, 0x44, 0x33]⟩⟩ rfl
    rfl⟩

end TTS
